import Mathlib

/-!
# CHIP-8 emulator: a shallow embedding of `src/src/emulator.cpp`

The C++ class `Emulator` becomes a record of the same fields, and every member
function becomes a function on that record.  Conventions:

* Arrays (`memory`, `stack`, `regs`) and bitsets (`keys`, `framebuf`) are maps from an
  index to a cell.  The C++ arrays have 4096, 16, 16, 16 and 2048 cells; a map has a
  cell at every index, so an access past the end of the C++ array (which the C++ code
  performs without any check in a few places) is visible in the model as an access to a
  cell whose index is at or beyond the array size.
* Machine integers are natural numbers; every store into a `uint8_t` is reduced
  modulo 256 and every store into a `uint16_t` modulo 65536.
* `assert` failures and `exit(EXIT_FAILURE)` are the two ways the C++ code stops; they
  are the `Stop.assert_fail` and `Stop.unknown_inst` results.  A stop is returned
  together with the machine state at the moment of the stop, so that what was stored
  before the stop can be observed.
* The outside world is passed in explicitly: the value returned by `rand()`, and the
  batches of SDL events that successive calls of `update_keys` will find in the queue.
-/

namespace Chip8

/-! ## Data model -/

/-- Array store: the map `a` with cell `i` replaced by `v` (C++ `a[i] = v`). -/
def store {α : Type} (a : Nat → α) (i : Nat) (v : α) : Nat → α :=
  fun k => if k = i then v else a k

/-- The member variables of `class Emulator` (emulator.h, plus `should_draw`, which
emulator.cpp uses as a member). -/
structure Emulator where
  memory : Nat → Nat
  stack : Nat → Nat
  regs : Nat → Nat
  I : Nat
  sp : Nat
  pc : Nat
  delay_timer : Nat
  sound_timer : Nat
  keys : Nat → Bool
  framebuf : Nat → Bool
  should_draw : Bool
  running : Bool

/-- The ways execution stops without producing a next state. -/
inductive Stop where
  /-- An `assert(...)` failed: the process aborts (bounds error). -/
  | assert_fail
  /-- The `default:` branches: `fprintf(stderr, "Unknown inst ...")` and
  `exit(EXIT_FAILURE)` (decode error). -/
  | unknown_inst
  /-- The key-wait loop used up every supplied batch of events while no key was down
  and `running` was still set: the C++ loop is still polling. -/
  | still_waiting
  deriving DecidableEq, Repr

/-- The events `SDL_PollEvent` can hand to `update_keys`; `sym` is `e.key.keysym.sym`. -/
inductive SDL_Event where
  | quit
  | keydown (sym : Nat)
  | keyup (sym : Nat)
  | other
  deriving DecidableEq, Repr

/-- The table `Emulator::KEYMAP`: x 1 2 3 q w e a s d z c 4 r f v.  SDL defines the
keycode of a printable key as its character code. -/
def KEYMAP (i : Nat) : Nat :=
  [120, 49, 50, 51, 113, 119, 101, 97, 115, 100, 122, 99, 52, 114, 102, 118].getD i 0

def FRAMEBUF_W : Nat := 64

def FRAMEBUF_H : Nat := 32

/-! ## Sprite drawing -/

/-- One pass through the body of the inner `if` of `display_sprite`:
`pixel_erased |= framebuf[p]; framebuf[p].flip();`. -/
def plot (acc : (Nat → Bool) × Bool) (p : Nat) : (Nat → Bool) × Bool :=
  (store acc.1 p (!acc.1 p), acc.2 || acc.1 p)

/-- The inner loop `for (int j = 0; j < 8; j++)` of `display_sprite` for sprite byte `c`
of row `i`. -/
def sprite_row (c x y i : Nat) (acc : (Nat → Bool) × Bool) : (Nat → Bool) × Bool :=
  (List.range 8).foldl
    (fun acc j =>
      if c &&& (1 <<< (7 - j)) ≠ 0 then
        let draw_x := (x + j) % FRAMEBUF_W
        let draw_y := (y + i) % FRAMEBUF_H
        plot acc (draw_x + draw_y * FRAMEBUF_W)
      else acc)
    acc

/-- The function `Emulator::display_sprite`: the two assertions, then the loop over
the `size` sprite bytes; returns the new state and `pixel_erased`.  A failed assertion
stops with the state the function was called in. -/
def display_sprite (s : Emulator) (addr size x y : Nat) : Except (Stop × Emulator) (Emulator × Bool) :=
  if ¬ size ≤ 15 then .error (.assert_fail, s)
  else if ¬ addr ≤ 4096 - size then .error (.assert_fail, s)
  else
    let r := (List.range size).foldl
      (fun acc i => sprite_row (s.memory (addr + i)) x y i acc)
      (s.framebuf, false)
    .ok ({ s with framebuf := r.1 }, r.2)

/-! ## Timers, keys -/

/-- The function `Emulator::update_timers`; the second component tells whether
`SDL_QueueAudio` was called. -/
def update_timers (s : Emulator) : Emulator × Bool :=
  let d := if s.delay_timer > 0 then s.delay_timer - 1 else s.delay_timer
  if s.sound_timer > 0 then
    let t := s.sound_timer - 1
    ({ s with delay_timer := d, sound_timer := t }, decide (t = 0))
  else
    ({ s with delay_timer := d }, false)

/-- The body of the `while (SDL_PollEvent(&e) != 0)` loop of `update_keys` for one
event. -/
def handle_event (s : Emulator) (e : SDL_Event) : Emulator :=
  match e with
  | .quit => { s with running := false }
  | .keydown sym =>
    let k1 := (List.range 16).foldl
      (fun k i => if sym = KEYMAP i then store k i true else k) s.keys
    { s with keys := k1 }
  | .keyup sym =>
    let k1 := (List.range 16).foldl
      (fun k i => if sym = KEYMAP i then store k i false else k) s.keys
    { s with keys := k1 }
  | .other => s

/-- The function `Emulator::update_keys`, run on the events `evs` waiting in the queue. -/
def update_keys (s : Emulator) (evs : List SDL_Event) : Emulator :=
  evs.foldl handle_event s

/-- Bitset test `keys.none()` on the 16 keys. -/
def keys_none (keys : Nat → Bool) : Bool :=
  (List.range 16).all (fun i => !keys i)

/-- The loop `for (int i = 0; i < 16; i++) if (keys[i]) return i;` followed by
`return -1` (255 as a `uint8_t`): `scan_keys keys n i` runs the `n` iterations from
index `i` on. -/
def scan_keys (keys : Nat → Bool) : Nat → Nat → Nat
  | 0, _ => 255
  | n + 1, i => if keys i then i else scan_keys keys n (i + 1)

/-- The function `Emulator::wait_for_key_press`.  Each turn of the `while` loop calls
`update_keys` on the next batch of `polls`; the result is the returned key, the state
and the batches not yet consumed.  When the batches run out with the loop condition
still true, the result is `still_waiting` with the state the loop has reached. -/
def wait_for_key_press :
    Emulator → List (List SDL_Event) → Except (Stop × Emulator) (Nat × Emulator × List (List SDL_Event))
  | s, [] =>
    if keys_none s.keys && s.running then .error (.still_waiting, s)
    else .ok (scan_keys s.keys 16 0, s, [])
  | s, evs :: rest =>
    if keys_none s.keys && s.running then wait_for_key_press (update_keys s evs) rest
    else .ok (scan_keys s.keys 16 0, s, evs :: rest)

/-! ## The interpreter -/

/-- The fetched word: `uint16_t inst = (memory[pc] << 8) | (memory[pc+1])`. -/
def fetch (s : Emulator) : Nat :=
  ((s.memory s.pc <<< 8) ||| s.memory (s.pc + 1)) % 65536

/-- The decoded field `opcode = (inst & 0xF000) >> 12`. -/
def opcode_of (inst : Nat) : Nat := (inst &&& 0xF000) >>> 12

/-- The decoded field `nnn = inst & 0x0FFF`. -/
def nnn_of (inst : Nat) : Nat := inst &&& 0x0FFF

/-- The decoded field `n = inst & 0x000F`. -/
def n_of (inst : Nat) : Nat := inst &&& 0x000F

/-- The decoded field `kk = inst & 0x00FF`. -/
def kk_of (inst : Nat) : Nat := inst &&& 0x00FF

/-- The decoded field `x = (inst & 0x0F00) >> 8`. -/
def x_of (inst : Nat) : Nat := (inst &&& 0x0F00) >>> 8

/-- The decoded field `y = (inst & 0x00F0) >> 4`. -/
def y_of (inst : Nat) : Nat := (inst &&& 0x00F0) >>> 4

/-- The statement `pc += k` on the 16-bit program counter. -/
def advance (s : Emulator) (k : Nat) : Emulator :=
  { s with pc := (s.pc + k) % 65536 }

/-- The function `Emulator::run_instruction`.  `rnd` is what `rand()` returns and
`polls` are the event batches a key wait will see; the result carries the batches left
over.  A stop carries the machine state at that point: the entry state where nothing
has been stored yet, the state with `should_draw` set for an assertion inside
`display_sprite`. -/
def run_instruction (s : Emulator) (rnd : Nat) (polls : List (List SDL_Event)) :
    Except (Stop × Emulator) (Emulator × List (List SDL_Event)) :=
  if ¬ s.pc < 4096 - 1 then .error (.assert_fail, s)
  else if ¬ s.sp < 16 then .error (.assert_fail, s)
  else
    let inst := fetch s
    let opcode := opcode_of inst
    let nnn := nnn_of inst
    let n := n_of inst
    let kk := kk_of inst
    let x := x_of inst
    let y := y_of inst
    if opcode = 0x0 then
      if kk = 0xE0 then
        .ok (advance { s with framebuf := fun _ => false } 2, polls)
      else if kk = 0xEE then
        .ok (advance { s with pc := s.stack s.sp, sp := (s.sp + 255) % 256 } 2, polls)
      else .error (.unknown_inst, s)
    else if opcode = 0x1 then
      .ok ({ s with pc := nnn }, polls)
    else if opcode = 0x2 then
      let sp1 := (s.sp + 1) % 256
      .ok ({ s with sp := sp1, stack := store s.stack sp1 s.pc, pc := nnn }, polls)
    else if opcode = 0x3 then
      .ok (advance s (if s.regs x = kk then 4 else 2), polls)
    else if opcode = 0x4 then
      .ok (advance s (if s.regs x ≠ kk then 4 else 2), polls)
    else if opcode = 0x5 then
      .ok (advance s (if s.regs x = s.regs y then 4 else 2), polls)
    else if opcode = 0x6 then
      .ok (advance { s with regs := store s.regs x kk } 2, polls)
    else if opcode = 0x7 then
      .ok (advance { s with regs := store s.regs x ((s.regs x + kk) % 256) } 2, polls)
    else if opcode = 0x8 then
      if n = 0x0 then
        .ok (advance { s with regs := store s.regs x (s.regs y) } 2, polls)
      else if n = 0x1 then
        .ok (advance { s with regs := store s.regs x ((s.regs x ||| s.regs y) % 256) } 2, polls)
      else if n = 0x2 then
        .ok (advance { s with regs := store s.regs x ((s.regs x &&& s.regs y) % 256) } 2, polls)
      else if n = 0x3 then
        .ok (advance { s with regs := store s.regs x ((s.regs x ^^^ s.regs y) % 256) } 2, polls)
      else if n = 0x4 then
        let r := store s.regs 0xF (if s.regs x + s.regs y > 255 then 1 else 0)
        .ok (advance { s with regs := store r x ((r x + r y) % 256) } 2, polls)
      else if n = 0x5 then
        let r := store s.regs 0xF (if s.regs x ≥ s.regs y then 1 else 0)
        .ok (advance { s with regs := store r x ((r x + 256 - r y % 256) % 256) } 2, polls)
      else if n = 0x6 then
        let r := store s.regs 0xF ((s.regs x &&& 1) % 256)
        .ok (advance { s with regs := store r x ((r x >>> 1) % 256) } 2, polls)
      else if n = 0x7 then
        let r := store s.regs 0xF (if s.regs y ≥ s.regs x then 1 else 0)
        .ok (advance { s with regs := store r x ((r y + 256 - r x % 256) % 256) } 2, polls)
      else if n = 0xE then
        let r := store s.regs 0xF ((s.regs x >>> 7) % 256)
        .ok (advance { s with regs := store r x ((r x <<< 1) % 256) } 2, polls)
      else .error (.unknown_inst, s)
    else if opcode = 0x9 then
      .ok (advance s (if s.regs x ≠ s.regs y then 4 else 2), polls)
    else if opcode = 0xA then
      .ok (advance { s with I := nnn } 2, polls)
    else if opcode = 0xB then
      .ok ({ s with pc := (s.regs 0 + nnn) % 65536 }, polls)
    else if opcode = 0xC then
      .ok (advance { s with regs := store s.regs x ((rnd &&& kk) % 256) } 2, polls)
    else if opcode = 0xD then
      match display_sprite { s with should_draw := true } s.I n (s.regs x) (s.regs y) with
      | .error e => .error e
      | .ok (s1, erased) =>
        .ok (advance { s1 with regs := store s1.regs 0xF (if erased then 1 else 0) } 2, polls)
    else if opcode = 0xE then
      if kk = 0x9E then
        .ok (advance s (if s.keys (s.regs x) then 4 else 2), polls)
      else if kk = 0xA1 then
        .ok (advance s (if !s.keys (s.regs x) then 4 else 2), polls)
      else .error (.unknown_inst, s)
    else if opcode = 0xF then
      if kk = 0x07 then
        .ok (advance { s with regs := store s.regs x s.delay_timer } 2, polls)
      else if kk = 0x0A then
        match wait_for_key_press s polls with
        | .error e => .error e
        | .ok (key, s1, rest) =>
          .ok (advance { s1 with regs := store s1.regs x key } 2, rest)
      else if kk = 0x15 then
        .ok (advance { s with delay_timer := s.regs x } 2, polls)
      else if kk = 0x18 then
        .ok (advance { s with sound_timer := s.regs x } 2, polls)
      else if kk = 0x1E then
        let r := store s.regs 0xF (if s.I + s.regs x > 255 then 1 else 0)
        .ok (advance { s with regs := r, I := (s.I + r x) % 65536 } 2, polls)
      else if kk = 0x29 then
        if ¬ s.regs x ≤ 0xF then .error (.assert_fail, s)
        else .ok (advance { s with I := (s.regs x * 5) % 65536 } 2, polls)
      else if kk = 0x33 then
        if ¬ s.I ≤ 4096 - 3 then .error (.assert_fail, s)
        else
          let m0 := store s.memory s.I ((s.regs x / 100) % 256)
          let m1 := store m0 (s.I + 1) (((s.regs x / 10) % 10) % 256)
          let m2 := store m1 (s.I + 2) ((s.regs x % 10) % 256)
          .ok (advance { s with memory := m2 } 2, polls)
      else if kk = 0x55 then
        if ¬ s.I ≤ 4096 - x then .error (.assert_fail, s)
        else if ¬ x ≤ 15 then .error (.assert_fail, s)
        else
          .ok (advance { s with memory := fun a =>
            if s.I ≤ a ∧ a < s.I + (x + 1) then s.regs (a - s.I) else s.memory a } 2, polls)
      else if kk = 0x65 then
        if ¬ s.I ≤ 4096 - x then .error (.assert_fail, s)
        else if ¬ x ≤ 15 then .error (.assert_fail, s)
        else
          .ok (advance { s with regs := fun k =>
            if k < x + 1 then s.memory (s.I + k) else s.regs k } 2, polls)
      else .error (.unknown_inst, s)
    else .error (.unknown_inst, s)

/-! ## The main loop -/

/-- The function `Emulator::update_screen`; the second component tells whether the
frame was presented (`SDL_RenderPresent`). -/
def update_screen (s : Emulator) : Emulator × Bool :=
  if !s.should_draw then (s, false)
  else ({ s with should_draw := false }, true)

/-- One turn of the `while (running)` loop of `Emulator::run`: `update_keys`,
`run_instruction`, `update_timers`, `update_screen` (the sleep is not modelled).  The
first batch of `polls` is what the opening `update_keys` finds in the queue (nothing,
when no batch is left); the result is the state, whether a sound was queued, and the
batches left over.  The loop runs the next turn when `running` is still set. -/
def run_cycle (s : Emulator) (rnd : Nat) (polls : List (List SDL_Event)) :
    Except (Stop × Emulator) (Emulator × Bool × List (List SDL_Event)) :=
  match run_instruction (update_keys s (polls.headD [])) rnd polls.tail with
  | .error e => .error e
  | .ok (s1, rest) =>
    .ok ((update_screen (update_timers s1).1).1, (update_timers s1).2, rest)

/-! ## Derived notions used to state and prove properties of the sprite loop -/

/-- The pixels (as bitset indices) that the inner loop of `display_sprite` plots for
sprite byte `c` of row `i`, in loop order. -/
def row_pixels (c x y i : Nat) : List Nat :=
  ((List.range 8).filter (fun j => c &&& (1 <<< (7 - j)) ≠ 0)).map
    (fun j => (x + j) % FRAMEBUF_W + (y + i) % FRAMEBUF_H * FRAMEBUF_W)

/-- The pixels that `display_sprite` plots, in loop order. -/
def sprite_pixels (memory : Nat → Nat) (addr size x y : Nat) : List Nat :=
  (List.range size).flatMap (fun i => row_pixels (memory (addr + i)) x y i)

/-- Whether pixel `k` is plotted an odd number of times by the list `ps`. -/
def toggled : List Nat → Nat → Bool
  | [], _ => false
  | p :: ps, k => xor (decide (k = p)) (toggled ps k)

/-! ## Derived notions used to state properties of instructions -/

/-- Everything but the key state and the `running` flag is the same in `s1` as in `s`:
what handling input events leaves alone. -/
def same_but_input (s s1 : Emulator) : Prop :=
  s1.memory = s.memory ∧ s1.stack = s.stack ∧ s1.regs = s.regs ∧ s1.I = s.I ∧
  s1.sp = s.sp ∧ s1.pc = s.pc ∧ s1.delay_timer = s.delay_timer ∧
  s1.sound_timer = s.sound_timer ∧ s1.framebuf = s.framebuf ∧
  s1.should_draw = s.should_draw

/-- The instruction words that are defined and are not a jump, call, return or skip:
00E0, 6xkk, 7xkk, 8xy0..8xy7, 8xyE, Annn, Cxkk, Dxyn, Fx07, Fx0A, Fx15, Fx18, Fx1E,
Fx29, Fx33, Fx55, Fx65. -/
def plain_instruction (w : Nat) : Prop :=
  (opcode_of w = 0x0 ∧ kk_of w = 0xE0) ∨ opcode_of w = 0x6 ∨ opcode_of w = 0x7 ∨
  (opcode_of w = 0x8 ∧ (n_of w ≤ 7 ∨ n_of w = 0xE)) ∨
  opcode_of w = 0xA ∨ opcode_of w = 0xC ∨ opcode_of w = 0xD ∨
  (opcode_of w = 0xF ∧
    (kk_of w = 0x07 ∨ kk_of w = 0x0A ∨ kk_of w = 0x15 ∨ kk_of w = 0x18 ∨
     kk_of w = 0x1E ∨ kk_of w = 0x29 ∨ kk_of w = 0x33 ∨ kk_of w = 0x55 ∨
     kk_of w = 0x65))

instance (w : Nat) : Decidable (plain_instruction w) := by
  unfold plain_instruction
  infer_instance

/-- The outcome the instruction set gives for the six conditional skips, read off the
fetched word `w`: 3xkk skips when Vx = kk, 4xkk when Vx ≠ kk, 5xy_ when Vx = Vy, 9xy_
when Vx ≠ Vy, Ex9E when key Vx is down and ExA1 when key Vx is not down (the last two
for a key index Vx ≤ 15).  `none` for every other word. -/
def skip_taken (s : Emulator) (w : Nat) : Option Bool :=
  if opcode_of w = 0x3 then some (decide (s.regs (x_of w) = kk_of w))
  else if opcode_of w = 0x4 then some (decide (s.regs (x_of w) ≠ kk_of w))
  else if opcode_of w = 0x5 then some (decide (s.regs (x_of w) = s.regs (y_of w)))
  else if opcode_of w = 0x9 then some (decide (s.regs (x_of w) ≠ s.regs (y_of w)))
  else if opcode_of w = 0xE ∧ kk_of w = 0x9E ∧ s.regs (x_of w) ≤ 15 then
    some (s.keys (s.regs (x_of w)))
  else if opcode_of w = 0xE ∧ kk_of w = 0xA1 ∧ s.regs (x_of w) ≤ 15 then
    some (!s.keys (s.regs (x_of w)))
  else none

/-- The words for which the instruction set defines nothing, read off the top nibble,
the low byte `kk` and the low nibble `n`: family 0 other than 00E0 and 00EE, family 8
with `n` outside 0..7 and 0xE, family E other than Ex9E and ExA1, family F with `kk`
outside 07, 0A, 15, 18, 1E, 29, 33, 55, 65. -/
def undefined_word (w : Nat) : Prop :=
  (opcode_of w = 0x0 ∧ kk_of w ≠ 0xE0 ∧ kk_of w ≠ 0xEE) ∨
  (opcode_of w = 0x8 ∧ ¬ (n_of w ≤ 7 ∨ n_of w = 0xE)) ∨
  (opcode_of w = 0xE ∧ kk_of w ≠ 0x9E ∧ kk_of w ≠ 0xA1) ∨
  (opcode_of w = 0xF ∧
    ¬ (kk_of w = 0x07 ∨ kk_of w = 0x0A ∨ kk_of w = 0x15 ∨ kk_of w = 0x18 ∨
       kk_of w = 0x1E ∨ kk_of w = 0x29 ∨ kk_of w = 0x33 ∨ kk_of w = 0x55 ∨
       kk_of w = 0x65))

instance (w : Nat) : Decidable (undefined_word w) := by
  unfold undefined_word
  infer_instance

/-! ## Start-up -/

/-- The table `font` of emulator.cpp: 16 glyphs of 5 bytes. -/
def font : List Nat :=
  [0xF0, 0x90, 0x90, 0x90, 0xF0,
   0x20, 0x60, 0x20, 0x20, 0x70,
   0xF0, 0x10, 0xF0, 0x80, 0xF0,
   0xF0, 0x10, 0xF0, 0x10, 0xF0,
   0x90, 0x90, 0xF0, 0x10, 0x10,
   0xF0, 0x80, 0xF0, 0x10, 0xF0,
   0xF0, 0x80, 0xF0, 0x90, 0xF0,
   0xF0, 0x10, 0x20, 0x40, 0x40,
   0xF0, 0x90, 0xF0, 0x90, 0xF0,
   0xF0, 0x90, 0xF0, 0x10, 0xF0,
   0xF0, 0x90, 0xF0, 0x90, 0x90,
   0xE0, 0x90, 0xE0, 0x90, 0xE0,
   0xF0, 0x80, 0x80, 0x80, 0xF0,
   0xE0, 0x90, 0x90, 0x90, 0xE0,
   0xF0, 0x80, 0xF0, 0x80, 0xF0,
   0xF0, 0x80, 0xF0, 0x80, 0x80]

/-- The state set up by the constructor `Emulator::Emulator` before it calls `load`. -/
def power_on : Emulator where
  memory := fun a => font.getD a 0
  stack := fun _ => 0
  regs := fun _ => 0
  I := 0
  sp := 0
  pc := 0x200
  delay_timer := 0
  sound_timer := 0
  keys := fun _ => false
  framebuf := fun _ => false
  should_draw := false
  running := false

/-- The effect of `read(fd, &memory[0x200], size)` for a file holding the bytes `rom`. -/
def write_rom (s : Emulator) (rom : List Nat) : Emulator :=
  { s with memory := fun a =>
      if 0x200 ≤ a ∧ a < 0x200 + rom.length then rom.getD (a - 0x200) 0 % 256
      else s.memory a }

/-- The function `Emulator::load` for a file holding the bytes `rom`:
`assert(sizeof(memory)-0x200 >= size)`, then the read. -/
def load (s : Emulator) (rom : List Nat) : Except (Stop × Emulator) Emulator :=
  if ¬ 4096 - 0x200 ≥ rom.length then .error (.assert_fail, s)
  else .ok (write_rom s rom)

/-- The register file holding the listed values in V0, V1, ... and 0 elsewhere. -/
def regs_of (vs : List Nat) : Nat → Nat := fun k => vs.getD k 0

/-! ## Concrete machines used as examples -/

/-- Program `8014` (ADD V0, V1) with V0 = 200 and V1 = 100. -/
def add_example : Emulator :=
  { write_rom power_on [0x80, 0x14] with regs := regs_of [200, 100] }

/-- Program `8015` (SUB V0, V1) with V0 = 5 and V1 = 7. -/
def sub_example : Emulator :=
  { write_rom power_on [0x80, 0x15] with regs := regs_of [5, 7] }

/-- Program `801E` (SHL V0) with V0 = 0x81 and V1 = 9. -/
def shl_example : Emulator :=
  { write_rom power_on [0x80, 0x1E] with regs := regs_of [0x81, 9] }

/-- Program `8016` (SHR V0) with V0 = 0x81 and V1 = 9. -/
def shr_example : Emulator :=
  { write_rom power_on [0x80, 0x16] with regs := regs_of [0x81, 9] }

/-- Program `8006` (SHR V0 with the y field naming V0 as well) with V0 = 2. -/
def shr_alias_example : Emulator :=
  { write_rom power_on [0x80, 0x06] with regs := regs_of [2] }

/-- Program `80F6` (SHR V0 with the y field naming VF) with V0 = 3 and VF = 0. -/
def shr_flag_example : Emulator :=
  { write_rom power_on [0x80, 0xF6] with regs := regs_of [3] }

/-- The machine after start-up with the pixel at column 10, row 10 already lit. -/
def lit_example : Emulator :=
  { power_on with framebuf := store power_on.framebuf (10 + 10 * 64) true }

/-- Program `F033` (LD B, V0) with V0 = 157 and I = 0x300. -/
def bcd_example : Emulator :=
  { write_rom power_on [0xF0, 0x33] with regs := regs_of [157], I := 0x300 }

/-- Program `F30A` (LD V3, K) with no key down and the emulator running. -/
def key_wait_example : Emulator :=
  { write_rom power_on [0xF3, 0x0A] with running := true }

/-- Three polls of the event queue: nothing of interest, then nothing at all, then the
key `z` (hex key 0xA) and the key `v` (hex key 0xF) going down. -/
def key_wait_polls : List (List SDL_Event) :=
  [[.other], [], [.keydown 122, .keydown 118]]

/-- Program `D015` (DRW V0, V1, 5) with I = 0, the address of the glyph for 0, and
V0 = 62, V1 = 30. -/
def draw_example : Emulator :=
  { write_rom power_on [0xD0, 0x15] with regs := regs_of [62, 30] }

/-- A two-byte program `hi lo` with V0 = 7, V1 = 7, V2 = 0xA and only key 0xA down. -/
def skip_example (hi lo : Nat) : Emulator :=
  { write_rom power_on [hi, lo] with
    regs := regs_of [7, 7, 0xA],
    keys := store power_on.keys 0xA true }

/-- Program `8018`: family 8 with low nibble 8, for which nothing is defined. -/
def bad_word_example : Emulator :=
  write_rom power_on [0x80, 0x18]

/-- Program `F155` (LD [I], V1) with I = 4095, V0 = 0x11 and V1 = 0x22. -/
def block_store_example : Emulator :=
  { write_rom power_on [0xF1, 0x55] with regs := regs_of [0x11, 0x22], I := 4095 }

/-- Program `F165` (LD V1, [I]) with I = 4095, memory[4095] = 0x33 and the cell just
past the 4096-byte array holding 0x44. -/
def block_load_example : Emulator :=
  { write_rom power_on [0xF1, 0x65] with
    memory := store (store (write_rom power_on [0xF1, 0x65]).memory 4095 0x33) 4096 0x44,
    I := 4095 }

/-- Program `80F4` (ADD V0, VF) with V0 = 200 and VF = 100. -/
def add_flag_operand_example : Emulator :=
  { write_rom power_on [0x80, 0xF4] with regs := store (regs_of [200]) 0xF 100 }

/-- Program `8F04` (ADD VF, V0) with VF = 200 and V0 = 100. -/
def add_flag_target_example : Emulator :=
  { write_rom power_on [0x8F, 0x04] with regs := store (regs_of [100]) 0xF 200 }

/-- Program `00E0` (CLS) entered with the pixel at column 10, row 10 lit and the
dirty flag clear. -/
def cls_example : Emulator :=
  { write_rom power_on [0x00, 0xE0] with
    framebuf := store power_on.framebuf (10 + 10 * 64) true }

/-- Program `1201` (JP 0x201): a jump to an odd address. -/
def jump_odd_example : Emulator :=
  write_rom power_on [0x12, 0x01]

/-- Program `2201` (CALL 0x201): a call of an odd address. -/
def call_odd_example : Emulator :=
  write_rom power_on [0x22, 0x01]

/-- Program `B200` (JP V0, 0x200) with V0 = 1. -/
def jump_v0_odd_example : Emulator :=
  { write_rom power_on [0xB2, 0x00] with regs := regs_of [1] }

/-- Program `00EE` (RET) with sp = 1 and the odd return address 0x301 in stack[1]. -/
def return_odd_example : Emulator :=
  { write_rom power_on [0x00, 0xEE] with sp := 1, stack := store power_on.stack 1 0x301 }

/-- Program `F30A` (LD V3, K) with V3 = 7, delay timer 5, sound timer 3, no key down
and the emulator running. -/
def quit_wait_example : Emulator :=
  { write_rom power_on [0xF3, 0x0A] with
    regs := regs_of [0, 0, 0, 7],
    delay_timer := 5,
    sound_timer := 3,
    running := true }

/-- Polls of the event queue during one cycle: nothing at the start of the cycle,
nothing at the first poll of the key wait, then the window being closed. -/
def quit_wait_polls : List (List SDL_Event) :=
  [[], [], [.quit]]

/-- Program `F255 F265` (LD [I], V2 then LD V2, [I]) with I = 0x300 and V0..V3 holding
1, 2, 3, 4. -/
def block_round_trip_example : Emulator :=
  { write_rom power_on [0xF2, 0x55, 0xF2, 0x65] with regs := regs_of [1, 2, 3, 4], I := 0x300 }

/-- Program `F01E` (ADD I, V0) with I = 0x300, V0 = 1 and VF = 0. -/
def add_index_example : Emulator :=
  { write_rom power_on [0xF0, 0x1E] with regs := regs_of [1], I := 0x300 }

/-- Program `F01E` (ADD I, V0) with I = 0x10, V0 = 5 and VF = 9. -/
def add_index_small_example : Emulator :=
  { write_rom power_on [0xF0, 0x1E] with regs := store (regs_of [5]) 0xF 9, I := 0x10 }

/-- Program `2204 0000 00EE`: at 0x200 a call of 0x204, where a return stands. -/
def call_example : Emulator :=
  write_rom power_on [0x22, 0x04, 0x00, 0x00, 0x00, 0xEE]

/-- Program `2300` (CALL 0x300) entered with the stack pointer at 15, the last slot of
the 16-entry stack, every slot `i` holding the return address `0x200 + 2 * i`. -/
def full_stack_example : Emulator :=
  { write_rom power_on [0x23, 0x00] with sp := 15, stack := fun i => 0x200 + 2 * i }

end Chip8

namespace Chip8

/-! ## Basic facts -/

@[simp] theorem store_same {α : Type} (a : Nat → α) (i : Nat) (v : α) : store a i v i = v := by
  simp [store]

theorem store_other {α : Type} (a : Nat → α) (i k : Nat) (v : α) (h : k ≠ i) :
    store a i v k = a k := by
  simp [store, h]

theorem and_shl_shr (w m k : Nat) : (w &&& (m <<< k)) >>> k = (w >>> k) &&& m := by
  apply Nat.eq_of_testBit_eq
  intro j
  simp [Nat.testBit_shiftLeft]

theorem opcode_of_eq (w : Nat) : opcode_of w = w / 4096 % 16 := by
  have h : (0xF000 : Nat) = (2 ^ 4 - 1) <<< 12 := by decide
  unfold opcode_of
  rw [h, and_shl_shr, Nat.and_pow_two_sub_one_eq_mod, Nat.shiftRight_eq_div_pow]

theorem x_of_eq (w : Nat) : x_of w = w / 256 % 16 := by
  have h : (0x0F00 : Nat) = (2 ^ 4 - 1) <<< 8 := by decide
  unfold x_of
  rw [h, and_shl_shr, Nat.and_pow_two_sub_one_eq_mod, Nat.shiftRight_eq_div_pow]

theorem y_of_eq (w : Nat) : y_of w = w / 16 % 16 := by
  have h : (0x00F0 : Nat) = (2 ^ 4 - 1) <<< 4 := by decide
  unfold y_of
  rw [h, and_shl_shr, Nat.and_pow_two_sub_one_eq_mod, Nat.shiftRight_eq_div_pow]

theorem nnn_of_eq (w : Nat) : nnn_of w = w % 4096 := by
  have h : (0x0FFF : Nat) = 2 ^ 12 - 1 := by decide
  unfold nnn_of
  rw [h, Nat.and_pow_two_sub_one_eq_mod]

theorem kk_of_eq (w : Nat) : kk_of w = w % 256 := by
  have h : (0x00FF : Nat) = 2 ^ 8 - 1 := by decide
  unfold kk_of
  rw [h, Nat.and_pow_two_sub_one_eq_mod]

theorem n_of_eq (w : Nat) : n_of w = w % 16 := by
  have h : (0x000F : Nat) = 2 ^ 4 - 1 := by decide
  unfold n_of
  rw [h, Nat.and_pow_two_sub_one_eq_mod]

/-- Decoding a word of family 8: `8xyn`. -/
theorem decode_8xyn (w x y n : Nat) (hx : x < 16) (hy : y < 16) (hn : n < 16)
    (hw : w = 0x8000 + 0x100 * x + 0x10 * y + n) :
    opcode_of w = 8 ∧ x_of w = x ∧ y_of w = y ∧ n_of w = n := by
  subst hw
  rw [opcode_of_eq, x_of_eq, y_of_eq, n_of_eq]
  omega

/-- What `8xy4` does to the whole machine. -/
theorem run_8xy4 (s : Emulator) (rnd : Nat) (polls : List (List SDL_Event)) (x y : Nat)
    (hpc : s.pc < 4095) (hsp : s.sp < 16) (hx : x < 16) (hy : y < 16)
    (hinst : fetch s = 0x8000 + 0x100 * x + 0x10 * y + 4) :
    run_instruction s rnd polls =
      .ok (advance
        { s with
          regs :=
            store (store s.regs 0xF (if s.regs x + s.regs y > 255 then 1 else 0)) x
              ((store s.regs 0xF (if s.regs x + s.regs y > 255 then 1 else 0) x +
                store s.regs 0xF (if s.regs x + s.regs y > 255 then 1 else 0) y) % 256) }
        2, polls) := by
  obtain ⟨h1, h2, h3, h4⟩ := decode_8xyn _ x y 4 hx hy (by omega) hinst
  simp [run_instruction, hpc, hsp, h1, h2, h3, h4]

/-- What `8xy5` does to the whole machine. -/
theorem run_8xy5 (s : Emulator) (rnd : Nat) (polls : List (List SDL_Event)) (x y : Nat)
    (hpc : s.pc < 4095) (hsp : s.sp < 16) (hx : x < 16) (hy : y < 16)
    (hinst : fetch s = 0x8000 + 0x100 * x + 0x10 * y + 5) :
    run_instruction s rnd polls =
      .ok (advance
        { s with
          regs :=
            store (store s.regs 0xF (if s.regs x ≥ s.regs y then 1 else 0)) x
              ((store s.regs 0xF (if s.regs x ≥ s.regs y then 1 else 0) x + 256 -
                store s.regs 0xF (if s.regs x ≥ s.regs y then 1 else 0) y % 256) % 256) }
        2, polls) := by
  obtain ⟨h1, h2, h3, h4⟩ := decode_8xyn _ x y 5 hx hy (by omega) hinst
  simp [run_instruction, hpc, hsp, h1, h2, h3, h4]

/-- What `8xy6` does to the whole machine. -/
theorem run_8xy6 (s : Emulator) (rnd : Nat) (polls : List (List SDL_Event)) (x y : Nat)
    (hpc : s.pc < 4095) (hsp : s.sp < 16) (hx : x < 16) (hy : y < 16)
    (hinst : fetch s = 0x8000 + 0x100 * x + 0x10 * y + 6) :
    run_instruction s rnd polls =
      .ok (advance
        { s with
          regs :=
            store (store s.regs 0xF ((s.regs x &&& 1) % 256)) x
              ((store s.regs 0xF ((s.regs x &&& 1) % 256) x >>> 1) % 256) }
        2, polls) := by
  obtain ⟨h1, h2, h3, h4⟩ := decode_8xyn _ x y 6 hx hy (by omega) hinst
  simp [run_instruction, hpc, hsp, h1, h2, h3, h4]

/-- What `8xyE` does to the whole machine. -/
theorem run_8xyE (s : Emulator) (rnd : Nat) (polls : List (List SDL_Event)) (x y : Nat)
    (hpc : s.pc < 4095) (hsp : s.sp < 16) (hx : x < 16) (hy : y < 16)
    (hinst : fetch s = 0x8000 + 0x100 * x + 0x10 * y + 0xE) :
    run_instruction s rnd polls =
      .ok (advance
        { s with
          regs :=
            store (store s.regs 0xF ((s.regs x >>> 7) % 256)) x
              ((store s.regs 0xF ((s.regs x >>> 7) % 256) x <<< 1) % 256) }
        2, polls) := by
  obtain ⟨h1, h2, h3, h4⟩ := decode_8xyn _ x y 0xE hx hy (by omega) hinst
  simp [run_instruction, hpc, hsp, h1, h2, h3, h4]

/-! ## Arithmetic instructions -/

/-- C1: for register indices x, y both different from 0xF and pre-instruction values
a = Vx, b = Vy, executing `8xy4` leaves VF = 1 if a + b > 255 and VF = 0 otherwise, and
leaves Vx = (a + b) mod 256 (x = y is allowed; then a = b). -/
theorem add_with_carry (s : Emulator) (rnd : Nat) (polls : List (List SDL_Event))
    (x y : Nat) (hpc : s.pc < 4095) (hsp : s.sp < 16)
    (hx : x < 16) (hy : y < 16) (hxF : x ≠ 0xF) (hyF : y ≠ 0xF)
    (hinst : fetch s = 0x8000 + 0x100 * x + 0x10 * y + 4) :
    ∃ s', run_instruction s rnd polls = .ok (s', polls) ∧
      s'.regs 0xF = (if s.regs x + s.regs y > 255 then 1 else 0) ∧
      s'.regs x = (s.regs x + s.regs y) % 256 := by
  refine ⟨_, run_8xy4 s rnd polls x y hpc hsp hx hy hinst, ?_, ?_⟩
  · simp only [advance]
    rw [store_other _ _ _ _ (Ne.symm hxF), store_same]
  · simp only [advance]
    rw [store_same, store_other _ _ _ _ hxF, store_other _ _ _ _ hyF]

theorem add_with_carry_witness :
    ∃ s', run_instruction add_example 0 [] = .ok (s', []) ∧
      s'.regs 0xF = (if add_example.regs 0 + add_example.regs 1 > 255 then 1 else 0) ∧
      s'.regs 0 = (add_example.regs 0 + add_example.regs 1) % 256 :=
  add_with_carry add_example 0 [] 0 1 (by decide) (by decide) (by decide) (by decide)
    (by decide) (by decide) (by decide)

/-- C2: for register indices x, y both different from 0xF and pre-instruction values
a = Vx, b = Vy, executing `8xy5` leaves VF = 1 if a ≥ b and VF = 0 otherwise, and leaves
Vx = (a - b) mod 256 (the difference taken in the integers). -/
theorem sub_with_borrow (s : Emulator) (rnd : Nat) (polls : List (List SDL_Event))
    (x y : Nat) (hpc : s.pc < 4095) (hsp : s.sp < 16)
    (hx : x < 16) (hy : y < 16) (hxF : x ≠ 0xF) (hyF : y ≠ 0xF)
    (hinst : fetch s = 0x8000 + 0x100 * x + 0x10 * y + 5) :
    ∃ s', run_instruction s rnd polls = .ok (s', polls) ∧
      s'.regs 0xF = (if s.regs x ≥ s.regs y then 1 else 0) ∧
      (s'.regs x : Int) = ((s.regs x : Int) - (s.regs y : Int)) % 256 := by
  refine ⟨_, run_8xy5 s rnd polls x y hpc hsp hx hy hinst, ?_, ?_⟩
  · simp only [advance]
    rw [store_other _ _ _ _ (Ne.symm hxF), store_same]
  · simp only [advance]
    rw [store_same, store_other _ _ _ _ hxF, store_other _ _ _ _ hyF]
    omega

theorem sub_with_borrow_witness :
    ∃ s', run_instruction sub_example 0 [] = .ok (s', []) ∧
      s'.regs 0xF = (if sub_example.regs 0 ≥ sub_example.regs 1 then 1 else 0) ∧
      (s'.regs 0 : Int) = ((sub_example.regs 0 : Int) - (sub_example.regs 1 : Int)) % 256 :=
  sub_with_borrow sub_example 0 [] 0 1 (by decide) (by decide) (by decide) (by decide)
    (by decide) (by decide) (by decide)

/-- C3, as stated, fails where the y field names Vx or VF.  At `8006` (x = 0, y = 0) with
V0 = 2 the claim asks for VF = bit 0 of 2, V0 = 2 / 2 and Vy = V0 left as it was; at
`80F6` (x = 0, y = 0xF) with V0 = 3 and VF = 0 it asks for VF = bit 0 of 3, V0 = 3 / 2
and Vy = VF left as it was.  The machine does neither. -/
theorem shift_vy_unmodified_counterexample :
    (fetch shr_alias_example = 0x8000 + 0x100 * 0 + 0x10 * 0 + 6 ∧
      shr_alias_example.regs 0 = 2 ∧
      ¬ (∀ s', run_instruction shr_alias_example 0 [] = .ok (s', []) →
          s'.regs 0xF = 2 % 2 ∧ s'.regs 0 = 2 / 2 ∧
          s'.regs 0 = shr_alias_example.regs 0)) ∧
    (fetch shr_flag_example = 0x8000 + 0x100 * 0 + 0x10 * 0xF + 6 ∧
      shr_flag_example.regs 0 = 3 ∧
      ¬ (∀ s', run_instruction shr_flag_example 0 [] = .ok (s', []) →
          s'.regs 0xF = 3 % 2 ∧ s'.regs 0 = 3 / 2 ∧
          s'.regs 0xF = shr_flag_example.regs 0xF)) := by
  refine ⟨⟨by decide, by decide, ?_⟩, ⟨by decide, by decide, ?_⟩⟩
  · intro h
    have hrun := run_8xy6 shr_alias_example 0 [] 0 0 (by decide) (by decide) (by decide)
      (by decide) (by decide)
    obtain ⟨-, h1, h2⟩ := h _ hrun
    rw [h1] at h2
    revert h2
    decide
  · intro h
    have hrun := run_8xy6 shr_flag_example 0 [] 0 0xF (by decide) (by decide) (by decide)
      (by decide) (by decide)
    obtain ⟨h1, -, h2⟩ := h _ hrun
    rw [h1] at h2
    revert h2
    decide

/-- C3 (amended): for a register index x different from 0xF and an 8-bit
pre-instruction value a = Vx, executing `8xyE` (n = 0xE) leaves VF = bit 7 of a and
Vx = (2a) mod 256, and executing `8xy6` (n = 6) leaves VF = bit 0 of a and
Vx = floor(a / 2).  In both cases every register other than Vx and VF keeps its value,
so Vy is not modified when y differs from x and from 0xF; and for such y the value of
Vy is not read: running the instruction with any other value w in Vy gives the same
register file except for Vy itself. -/
theorem shift_flag_and_result (s : Emulator) (rnd : Nat) (polls : List (List SDL_Event))
    (x y n : Nat) (hpc : s.pc < 4095) (hsp : s.sp < 16)
    (hx : x < 16) (hy : y < 16) (hxF : x ≠ 0xF) (ha : s.regs x < 256)
    (hn : n = 0xE ∨ n = 6)
    (hinst : fetch s = 0x8000 + 0x100 * x + 0x10 * y + n) :
    ∃ s', run_instruction s rnd polls = .ok (s', polls) ∧
      s'.regs 0xF = (if n = 0xE then s.regs x / 128 % 2 else s.regs x % 2) ∧
      s'.regs x = (if n = 0xE then (2 * s.regs x) % 256 else s.regs x / 2) ∧
      (∀ k, k ≠ x → k ≠ 0xF → s'.regs k = s.regs k) ∧
      (y ≠ x → y ≠ 0xF → ∀ w, ∃ s'',
        run_instruction { s with regs := store s.regs y w } rnd polls = .ok (s'', polls) ∧
        s''.regs = store s'.regs y w) := by
  have hshl : ∀ a : Nat, a <<< 1 = 2 * a := fun a => rfl
  rcases hn with rfl | rfl
  · refine ⟨_, run_8xyE s rnd polls x y hpc hsp hx hy hinst, ?_, ?_, ?_, ?_⟩
    · simp only [advance]
      rw [store_other _ _ _ _ (Ne.symm hxF), store_same, Nat.shiftRight_eq_div_pow]
      simp only [if_true]
      omega
    · simp only [advance]
      rw [store_same, store_other _ _ _ _ hxF, hshl]
      simp
    · intro k hk hkF
      simp only [advance]
      rw [store_other _ _ _ _ hk, store_other _ _ _ _ hkF]
    · intro hyx hyF w
      refine ⟨_, run_8xyE { s with regs := store s.regs y w } rnd polls x y hpc hsp hx hy
        hinst, ?_⟩
      funext k
      have hxy : x ≠ y := Ne.symm hyx
      simp only [advance, store]
      by_cases h1 : k = y <;> by_cases h2 : k = x <;> by_cases h3 : k = 0xF <;>
        simp_all
  · refine ⟨_, run_8xy6 s rnd polls x y hpc hsp hx hy hinst, ?_, ?_, ?_, ?_⟩
    · simp only [advance]
      rw [store_other _ _ _ _ (Ne.symm hxF), store_same, Nat.and_one_is_mod]
      simp
      omega
    · simp only [advance]
      rw [store_same, store_other _ _ _ _ hxF, Nat.shiftRight_eq_div_pow]
      simp
      omega
    · intro k hk hkF
      simp only [advance]
      rw [store_other _ _ _ _ hk, store_other _ _ _ _ hkF]
    · intro hyx hyF w
      refine ⟨_, run_8xy6 { s with regs := store s.regs y w } rnd polls x y hpc hsp hx hy
        hinst, ?_⟩
      funext k
      have hxy : x ≠ y := Ne.symm hyx
      simp only [advance, store]
      by_cases h1 : k = y <;> by_cases h2 : k = x <;> by_cases h3 : k = 0xF <;>
        simp_all

theorem shift_flag_and_result_witness :
    (∃ s', run_instruction shl_example 0 [] = .ok (s', []) ∧
      s'.regs 0xF = 1 ∧ s'.regs 0 = 0x02 ∧ s'.regs 1 = 9) ∧
    (∃ s', run_instruction shr_example 0 [] = .ok (s', []) ∧
      s'.regs 0xF = 1 ∧ s'.regs 0 = 0x40 ∧ s'.regs 1 = 9) := by
  constructor
  · obtain ⟨s', h0, h1, h2, h3, -⟩ :=
      shift_flag_and_result shl_example 0 [] 0 1 0xE (by decide) (by decide) (by decide)
        (by decide) (by decide) (by decide) (by decide) (by decide)
    exact ⟨s', h0, by rw [h1]; decide, by rw [h2]; decide,
      by rw [h3 1 (by decide) (by decide)]; decide⟩
  · obtain ⟨s', h0, h1, h2, h3, -⟩ :=
      shift_flag_and_result shr_example 0 [] 0 1 6 (by decide) (by decide) (by decide)
        (by decide) (by decide) (by decide) (by decide) (by decide)
    exact ⟨s', h0, by rw [h1]; decide, by rw [h2]; decide,
      by rw [h3 1 (by decide) (by decide)]; decide⟩

/-! ## Call and return -/

/-- What `2nnn` does to the whole machine. -/
theorem run_2nnn (s : Emulator) (rnd : Nat) (polls : List (List SDL_Event)) (nnn : Nat)
    (hpc : s.pc < 4095) (hsp : s.sp < 16) (hnnn : nnn < 4096)
    (hinst : fetch s = 0x2000 + nnn) :
    run_instruction s rnd polls =
      .ok ({ s with
              sp := (s.sp + 1) % 256,
              stack := store s.stack ((s.sp + 1) % 256) s.pc,
              pc := nnn }, polls) := by
  have h1 : opcode_of (fetch s) = 2 := by rw [hinst, opcode_of_eq]; omega
  have h2 : nnn_of (fetch s) = nnn := by rw [hinst, nnn_of_eq]; omega
  simp [run_instruction, hpc, hsp, h1, h2]

/-- What `00EE` does to the whole machine. -/
theorem run_00EE (s : Emulator) (rnd : Nat) (polls : List (List SDL_Event))
    (hpc : s.pc < 4095) (hsp : s.sp < 16) (hinst : fetch s = 0x00EE) :
    run_instruction s rnd polls =
      .ok (advance { s with pc := s.stack s.sp, sp := (s.sp + 255) % 256 } 2, polls) := by
  have h1 : opcode_of (fetch s) = 0 := by rw [hinst]; decide
  have h2 : kk_of (fetch s) = 0xEE := by rw [hinst]; decide
  simp [run_instruction, hpc, hsp, h1, h2]

/-- C4: from a state with PC = p and stack pointer sp ≤ 14, executing `2nnn` and then
the `00EE` held in the two memory bytes at nnn leaves PC = p + 2 and the stack pointer
equal to sp, with registers, I, timers, memory and display unchanged. -/
theorem call_return_round_trip (s : Emulator) (rnd rnd2 : Nat)
    (polls polls2 : List (List SDL_Event)) (nnn : Nat)
    (hpc : s.pc < 4095) (hsp : s.sp ≤ 14) (hnnn : nnn + 1 < 4096)
    (hcall : fetch s = 0x2000 + nnn)
    (hret0 : s.memory nnn = 0x00) (hret1 : s.memory (nnn + 1) = 0xEE) :
    ∃ s1 s2, run_instruction s rnd polls = .ok (s1, polls) ∧
      run_instruction s1 rnd2 polls2 = .ok (s2, polls2) ∧
      s2.pc = s.pc + 2 ∧ s2.sp = s.sp ∧ s2.regs = s.regs ∧ s2.I = s.I ∧
      s2.delay_timer = s.delay_timer ∧ s2.sound_timer = s.sound_timer ∧
      s2.memory = s.memory ∧ s2.framebuf = s.framebuf := by
  have hrun1 := run_2nnn s rnd polls nnn hpc (by omega) (by omega) hcall
  have hsp1 : (s.sp + 1) % 256 = s.sp + 1 := by omega
  rw [hsp1] at hrun1
  have hfetch2 :
      fetch
        { s with
          sp := s.sp + 1,
          stack := store s.stack (s.sp + 1) s.pc,
          pc := nnn } = 0x00EE := by
    simp only [fetch]
    rw [hret0, hret1]
    decide
  have hrun2 := run_00EE _ rnd2 polls2 (by show nnn < 4095; omega)
    (by show s.sp + 1 < 16; omega) hfetch2
  refine ⟨_, _, hrun1, hrun2, ?_, ?_, rfl, rfl, rfl, rfl, rfl, rfl⟩
  · show (store s.stack (s.sp + 1) s.pc (s.sp + 1) + 2) % 65536 = s.pc + 2
    rw [store_same]
    omega
  · show (s.sp + 1 + 255) % 256 = s.sp
    omega

theorem call_return_round_trip_witness :
    ∃ s1 s2, run_instruction call_example 0 [] = .ok (s1, []) ∧
      run_instruction s1 0 [] = .ok (s2, []) ∧
      s2.pc = call_example.pc + 2 ∧ s2.sp = call_example.sp ∧
      s2.regs = call_example.regs ∧ s2.I = call_example.I ∧
      s2.delay_timer = call_example.delay_timer ∧
      s2.sound_timer = call_example.sound_timer ∧
      s2.memory = call_example.memory ∧ s2.framebuf = call_example.framebuf :=
  call_return_round_trip call_example 0 0 [] [] 0x204 (by decide) (by decide) (by decide)
    (by decide) (by decide) (by decide)

/-- C5 (the code at the failing input): a `2300` executed with the stack pointer at 15
does not stop with an error.  It completes with the stack pointer at 16, outside the
16-entry stack, after storing the return address in cell 16, one past the last slot,
and with PC at the call target. -/
theorem call_at_full_stack_completes :
    full_stack_example.sp = 15 ∧ fetch full_stack_example = 0x2300 ∧
    ∃ s', run_instruction full_stack_example 0 [] = .ok (s', []) ∧
      s'.sp = 16 ∧ s'.stack 16 = 0x200 ∧ s'.pc = 0x300 := by
  refine ⟨by decide, by decide, _, run_2nnn full_stack_example 0 [] 0x300 (by decide)
    (by decide) (by decide) (by decide), ?_, ?_, ?_⟩ <;> decide

/-! ## Sprite drawing -/

theorem foldl_plot_filter_map (p : Nat → Prop) [DecidablePred p] (f : Nat → Nat)
    (l : List Nat) (acc : (Nat → Bool) × Bool) :
    l.foldl (fun acc j => if p j then plot acc (f j) else acc) acc =
      ((l.filter (fun j => decide (p j))).map f).foldl plot acc := by
  induction l generalizing acc with
  | nil => rfl
  | cons j l ih =>
    by_cases h : p j
    · simp [List.filter_cons, h, ih]
    · simp [List.filter_cons, h, ih]

theorem sprite_row_eq (c x y i : Nat) (acc : (Nat → Bool) × Bool) :
    sprite_row c x y i acc = (row_pixels c x y i).foldl plot acc := by
  unfold sprite_row row_pixels
  exact foldl_plot_filter_map (fun j => c &&& (1 <<< (7 - j)) ≠ 0)
    (fun j => (x + j) % FRAMEBUF_W + (y + i) % FRAMEBUF_H * FRAMEBUF_W) (List.range 8) acc

theorem foldl_plot_flatMap (g : Nat → List Nat) (l : List Nat) (acc : (Nat → Bool) × Bool) :
    l.foldl (fun acc i => (g i).foldl plot acc) acc = (l.flatMap g).foldl plot acc := by
  induction l generalizing acc with
  | nil => rfl
  | cons i l ih => simp [ih]

/-- The two nested loops of `display_sprite` plot the pixels of `sprite_pixels` one
after the other. -/
theorem display_sprite_eq (s : Emulator) (addr size x y : Nat)
    (hsize : size ≤ 15) (haddr : addr + size ≤ 4096) :
    display_sprite s addr size x y =
      .ok ({ s with framebuf :=
              ((sprite_pixels s.memory addr size x y).foldl plot (s.framebuf, false)).1 },
           ((sprite_pixels s.memory addr size x y).foldl plot (s.framebuf, false)).2) := by
  have h2 : addr ≤ 4096 - size := by omega
  simp only [display_sprite, hsize, h2, not_true_eq_false, if_false, sprite_row_eq]
  rw [foldl_plot_flatMap (fun i => row_pixels (s.memory (addr + i)) x y i)]
  rfl

/-- The bitmap after plotting a list of pixels: each pixel is flipped once for every
time it occurs in the list. -/
theorem foldl_plot_fst (ps : List Nat) (fb : Nat → Bool) (e : Bool) :
    (ps.foldl plot (fb, e)).1 = fun k => xor (fb k) (toggled ps k) := by
  induction ps generalizing fb e with
  | nil => funext k; simp [toggled]
  | cons p ps ih =>
    rw [List.foldl_cons, plot, ih]
    funext k
    by_cases h : k = p
    · subst h; simp [toggled, store]
    · simp [toggled, store, h]

theorem mem_of_toggled (ps : List Nat) (k : Nat) (h : toggled ps k = true) : k ∈ ps := by
  induction ps with
  | nil => simp [toggled] at h
  | cons p ps ih =>
    by_cases hk : k = p
    · subst hk; exact List.mem_cons_self _ _
    · simp [toggled, hk] at h
      exact List.mem_cons_of_mem _ (ih h)

theorem foldl_plot_snd_of_true (ps : List Nat) (fb : Nat → Bool) :
    (ps.foldl plot (fb, true)).2 = true := by
  induction ps generalizing fb with
  | nil => rfl
  | cons p ps ih => rw [List.foldl_cons, plot]; exact ih _

/-- Plotting a list of pixels reports an erased pixel as soon as one of them is lit in
the bitmap it starts from. -/
theorem foldl_plot_snd_of_lit (ps : List Nat) (fb : Nat → Bool) (e : Bool) (k : Nat)
    (hmem : k ∈ ps) (hlit : fb k = true) : (ps.foldl plot (fb, e)).2 = true := by
  induction ps generalizing fb e with
  | nil => simp at hmem
  | cons p ps ih =>
    rw [List.foldl_cons, plot]
    by_cases hk : k = p
    · subst hk
      simp only [hlit, Bool.or_true]
      exact foldl_plot_snd_of_true _ _
    · have hmem2 : k ∈ ps := by
        rcases List.mem_cons.mp hmem with h | h
        · exact absurd h hk
        · exact h
      exact ih _ _ hmem2 (by rw [store_other _ _ _ _ hk]; exact hlit)

/-- C6: for every display grid, memory, addr and size ≤ 15 with addr + size ≤ 4096, and
coordinates x, y, two calls of `display_sprite` in succession with the same arguments
both return, and the grid after the second call equals the grid before the first. -/
theorem sprite_blit_involution (s : Emulator) (addr size x y : Nat)
    (hsize : size ≤ 15) (haddr : addr + size ≤ 4096) :
    ∃ s1 c1 s2 c2, display_sprite s addr size x y = .ok (s1, c1) ∧
      display_sprite s1 addr size x y = .ok (s2, c2) ∧
      s2.framebuf = s.framebuf := by
  refine ⟨_, _, _, _, display_sprite_eq s addr size x y hsize haddr,
    display_sprite_eq _ addr size x y hsize haddr, ?_⟩
  simp only [foldl_plot_fst]
  funext k
  simp

theorem sprite_blit_involution_witness :
    ∃ s1 c1 s2 c2, display_sprite lit_example 0 5 9 8 = .ok (s1, c1) ∧
      display_sprite s1 0 5 9 8 = .ok (s2, c2) ∧
      s2.framebuf = lit_example.framebuf :=
  sprite_blit_involution lit_example 0 5 9 8 (by decide) (by decide)

/-- C7: for every grid, memory and arguments with size ≤ 15 and addr + size ≤ 4096, two
identical calls of `display_sprite` in succession both return, and if the first call
turned some pixel from unset to set then the second call returns collision = true. -/
theorem second_draw_reports_collision (s : Emulator) (addr size x y : Nat)
    (hsize : size ≤ 15) (haddr : addr + size ≤ 4096) :
    ∃ s1 c1 s2 c2, display_sprite s addr size x y = .ok (s1, c1) ∧
      display_sprite s1 addr size x y = .ok (s2, c2) ∧
      ((∃ k, s.framebuf k = false ∧ s1.framebuf k = true) → c2 = true) := by
  refine ⟨_, _, _, _, display_sprite_eq s addr size x y hsize haddr,
    display_sprite_eq _ addr size x y hsize haddr, ?_⟩
  rintro ⟨k, h0, h1⟩
  have hmem : k ∈ sprite_pixels s.memory addr size x y := by
    apply mem_of_toggled
    have h := h1
    simp only [foldl_plot_fst, h0, Bool.false_xor] at h
    exact h
  exact foldl_plot_snd_of_lit _ _ _ k hmem h1

theorem second_draw_reports_collision_witness :
    ∃ s1 c1 s2, display_sprite power_on 0 5 9 8 = .ok (s1, c1) ∧
      display_sprite s1 0 5 9 8 = .ok (s2, true) := by
  obtain ⟨s1, c1, s2, c2, h1, h2, h⟩ :=
    second_draw_reports_collision power_on 0 5 9 8 (by decide) (by decide)
  have hlit : s1.framebuf (9 + 8 * 64) = true := by
    have e := display_sprite_eq power_on 0 5 9 8 (by decide) (by decide)
    rw [e] at h1
    simp only [Except.ok.injEq, Prod.mk.injEq] at h1
    obtain ⟨rfl, -⟩ := h1
    decide
  have hc : c2 = true := h ⟨9 + 8 * 64, by decide, hlit⟩
  subst hc
  exact ⟨s1, c1, s2, h1, h2⟩

/-! ## BCD store -/

/-- Decoding a word of family F: `Fxkk`. -/
theorem decode_Fxkk (w x kk : Nat) (hx : x < 16) (hkk : kk < 256)
    (hw : w = 0xF000 + 0x100 * x + kk) :
    opcode_of w = 0xF ∧ x_of w = x ∧ kk_of w = kk := by
  subst hw
  rw [opcode_of_eq, x_of_eq, kk_of_eq]
  omega

/-- What `Fx33` does to the whole machine when I ≤ 4093. -/
theorem run_Fx33 (s : Emulator) (rnd : Nat) (polls : List (List SDL_Event)) (x : Nat)
    (hpc : s.pc < 4095) (hsp : s.sp < 16) (hx : x < 16) (hI : s.I ≤ 4093)
    (hinst : fetch s = 0xF000 + 0x100 * x + 0x33) :
    run_instruction s rnd polls =
      .ok (advance
        { s with
          memory :=
            store
              (store (store s.memory s.I ((s.regs x / 100) % 256))
                (s.I + 1) (((s.regs x / 10) % 10) % 256))
              (s.I + 2) ((s.regs x % 10) % 256) }
        2, polls) := by
  obtain ⟨h1, h2, h3⟩ := decode_Fxkk _ x 0x33 hx (by omega) hinst
  simp [run_instruction, hpc, hsp, h1, h2, h3, hI]

/-- C8: for every register index x, every 8-bit value v = Vx and every I ≤ 4093,
executing `Fx33` writes memory[I] = v / 100, memory[I+1] = (v / 10) mod 10 and
memory[I+2] = v mod 10; each of the three is a decimal digit and
100 * memory[I] + 10 * memory[I+1] + memory[I+2] = v; every other memory byte, every
register and I are unchanged; for v = 157 the bytes written are 1, 5, 7. -/
theorem bcd_store (s : Emulator) (rnd : Nat) (polls : List (List SDL_Event)) (x : Nat)
    (hpc : s.pc < 4095) (hsp : s.sp < 16) (hx : x < 16) (hv : s.regs x < 256)
    (hI : s.I ≤ 4093) (hinst : fetch s = 0xF000 + 0x100 * x + 0x33) :
    ∃ s', run_instruction s rnd polls = .ok (s', polls) ∧
      s'.memory s.I = s.regs x / 100 ∧
      s'.memory (s.I + 1) = (s.regs x / 10) % 10 ∧
      s'.memory (s.I + 2) = s.regs x % 10 ∧
      s'.memory s.I ≤ 9 ∧ s'.memory (s.I + 1) ≤ 9 ∧ s'.memory (s.I + 2) ≤ 9 ∧
      100 * s'.memory s.I + 10 * s'.memory (s.I + 1) + s'.memory (s.I + 2) = s.regs x ∧
      (∀ a, a ≠ s.I → a ≠ s.I + 1 → a ≠ s.I + 2 → s'.memory a = s.memory a) ∧
      s'.regs = s.regs ∧ s'.I = s.I ∧
      (s.regs x = 157 →
        s'.memory s.I = 1 ∧ s'.memory (s.I + 1) = 5 ∧ s'.memory (s.I + 2) = 7) := by
  have e0 : (advance
        { s with
          memory :=
            store
              (store (store s.memory s.I ((s.regs x / 100) % 256))
                (s.I + 1) (((s.regs x / 10) % 10) % 256))
              (s.I + 2) ((s.regs x % 10) % 256) } 2).memory s.I = s.regs x / 100 := by
    simp only [advance]
    rw [store_other _ _ _ _ (by omega), store_other _ _ _ _ (by omega), store_same]
    omega
  have e1 : (advance
        { s with
          memory :=
            store
              (store (store s.memory s.I ((s.regs x / 100) % 256))
                (s.I + 1) (((s.regs x / 10) % 10) % 256))
              (s.I + 2) ((s.regs x % 10) % 256) } 2).memory (s.I + 1) =
        (s.regs x / 10) % 10 := by
    simp only [advance]
    rw [store_other _ _ _ _ (by omega), store_same]
    omega
  have e2 : (advance
        { s with
          memory :=
            store
              (store (store s.memory s.I ((s.regs x / 100) % 256))
                (s.I + 1) (((s.regs x / 10) % 10) % 256))
              (s.I + 2) ((s.regs x % 10) % 256) } 2).memory (s.I + 2) = s.regs x % 10 := by
    simp only [advance]
    rw [store_same]
    omega
  refine ⟨_, run_Fx33 s rnd polls x hpc hsp hx hI hinst, e0, e1, e2, ?_, ?_, ?_, ?_, ?_,
    rfl, rfl, ?_⟩
  · rw [e0]; omega
  · rw [e1]; omega
  · rw [e2]; omega
  · rw [e0, e1, e2]; omega
  · intro a h0 h1 h2
    simp only [advance]
    rw [store_other _ _ _ _ h2, store_other _ _ _ _ h1, store_other _ _ _ _ h0]
  · intro h157
    rw [e0, e1, e2, h157]
    decide

theorem bcd_store_witness :
    ∃ s', run_instruction bcd_example 0 [] = .ok (s', []) ∧
      s'.memory 0x300 = 1 ∧ s'.memory 0x301 = 5 ∧ s'.memory 0x302 = 7 := by
  obtain ⟨s', h, -, -, -, -, -, -, -, -, -, -, h157⟩ :=
    bcd_store bcd_example 0 [] 0 (by decide) (by decide) (by decide) (by decide)
      (by decide) (by decide)
  exact ⟨s', h, h157 (by decide)⟩

/-! ## Key wait -/

theorem same_but_input_refl (s : Emulator) : same_but_input s s :=
  ⟨rfl, rfl, rfl, rfl, rfl, rfl, rfl, rfl, rfl, rfl⟩

theorem same_but_input_trans {s s1 s2 : Emulator} (h1 : same_but_input s s1)
    (h2 : same_but_input s1 s2) : same_but_input s s2 := by
  obtain ⟨a1, a2, a3, a4, a5, a6, a7, a8, a9, a10⟩ := h1
  obtain ⟨b1, b2, b3, b4, b5, b6, b7, b8, b9, b10⟩ := h2
  exact ⟨b1.trans a1, b2.trans a2, b3.trans a3, b4.trans a4, b5.trans a5, b6.trans a6,
    b7.trans a7, b8.trans a8, b9.trans a9, b10.trans a10⟩

theorem handle_event_same (s : Emulator) (e : SDL_Event) :
    same_but_input s (handle_event s e) := by
  cases e <;> exact ⟨rfl, rfl, rfl, rfl, rfl, rfl, rfl, rfl, rfl, rfl⟩

theorem update_keys_same (s : Emulator) (evs : List SDL_Event) :
    same_but_input s (update_keys s evs) := by
  unfold update_keys
  induction evs generalizing s with
  | nil => exact same_but_input_refl s
  | cons e evs ih =>
    exact same_but_input_trans (handle_event_same s e) (ih (handle_event s e))

/-- When `wait_for_key_press` returns, only the key state and `running` may differ from
the state it started in, and the returned value is what the scan of the final key
state gives. -/
theorem wait_for_key_press_ok (s : Emulator) (polls : List (List SDL_Event))
    (key : Nat) (s1 : Emulator) (rest : List (List SDL_Event))
    (h : wait_for_key_press s polls = .ok (key, s1, rest)) :
    same_but_input s s1 ∧ key = scan_keys s1.keys 16 0 := by
  induction polls generalizing s with
  | nil =>
    unfold wait_for_key_press at h
    split at h
    · cases h
    · simp only [Except.ok.injEq, Prod.mk.injEq] at h
      obtain ⟨rfl, rfl, -⟩ := h
      exact ⟨same_but_input_refl s, rfl⟩
  | cons evs polls ih =>
    unfold wait_for_key_press at h
    split at h
    · obtain ⟨h1, h2⟩ := ih (update_keys s evs) h
      exact ⟨same_but_input_trans (update_keys_same s evs) h1, h2⟩
    · simp only [Except.ok.injEq, Prod.mk.injEq] at h
      obtain ⟨rfl, rfl, -⟩ := h
      exact ⟨same_but_input_refl s, rfl⟩

/-- The scan loop returns the lowest index in its range whose key is down, when there
is one. -/
theorem scan_keys_lowest (keys : Nat → Bool) (n i : Nat)
    (h : ∃ j, i ≤ j ∧ j < i + n ∧ keys j = true) :
    i ≤ scan_keys keys n i ∧ scan_keys keys n i < i + n ∧
      keys (scan_keys keys n i) = true ∧
      ∀ j, i ≤ j → j < scan_keys keys n i → keys j = false := by
  induction n generalizing i with
  | zero =>
    obtain ⟨j, h1, h2, -⟩ := h
    omega
  | succ n ih =>
    unfold scan_keys
    by_cases hi : keys i = true
    · rw [if_pos hi]
      exact ⟨le_refl i, by omega, hi, fun j h1 h2 => by omega⟩
    · rw [if_neg hi]
      have h2 : ∃ j, i + 1 ≤ j ∧ j < i + 1 + n ∧ keys j = true := by
        obtain ⟨j, h1, h2, h3⟩ := h
        have hne : j ≠ i := fun e => hi (e ▸ h3)
        exact ⟨j, by omega, by omega, h3⟩
      obtain ⟨a1, a2, a3, a4⟩ := ih (i + 1) h2
      refine ⟨by omega, by omega, a3, ?_⟩
      intro j h1 hj
      by_cases hji : j = i
      · subst hji
        simpa using hi
      · exact a4 j (by omega) hj

/-- What `Fx0A` does: it fails exactly when the wait fails, and otherwise stores the
returned key in Vx and adds 2 to PC. -/
theorem run_Fx0A (s : Emulator) (rnd : Nat) (polls : List (List SDL_Event)) (x : Nat)
    (hpc : s.pc < 4095) (hsp : s.sp < 16) (hx : x < 16)
    (hinst : fetch s = 0xF000 + 0x100 * x + 0x0A) :
    run_instruction s rnd polls =
      match wait_for_key_press s polls with
      | .error e => .error e
      | .ok (key, s1, rest) =>
        .ok (advance { s1 with regs := store s1.regs x key } 2, rest) := by
  obtain ⟨h1, h2, h3⟩ := decode_Fxkk _ x 0x0A hx (by omega) hinst
  simp [run_instruction, hpc, hsp, h1, h2, h3]

/-- C9: whenever `Fx0A` completes with at least one of the 16 keys down in the key state
it ends with, Vx holds the lowest index i in 0..15 with keys[i] set, PC has advanced by
exactly 2, and the timers, I, the stack, the stack pointer, memory, the display and
every register other than Vx are as they were before the instruction. -/
theorem key_wait_result (s : Emulator) (rnd : Nat) (polls : List (List SDL_Event))
    (x : Nat) (s' : Emulator) (rest : List (List SDL_Event)) (hx : x < 16)
    (hinst : fetch s = 0xF000 + 0x100 * x + 0x0A)
    (hrun : run_instruction s rnd polls = .ok (s', rest))
    (hkey : ∃ i, i < 16 ∧ s'.keys i = true) :
    s'.regs x < 16 ∧ s'.keys (s'.regs x) = true ∧
      (∀ j, j < s'.regs x → s'.keys j = false) ∧
      s'.pc = s.pc + 2 ∧
      s'.delay_timer = s.delay_timer ∧ s'.sound_timer = s.sound_timer ∧
      s'.I = s.I ∧ s'.stack = s.stack ∧ s'.sp = s.sp ∧ s'.memory = s.memory ∧
      s'.framebuf = s.framebuf ∧ (∀ k, k ≠ x → s'.regs k = s.regs k) := by
  have hpc : s.pc < 4095 := by
    by_contra hc
    simp [run_instruction, hc] at hrun
  have hsp : s.sp < 16 := by
    by_contra hc
    simp [run_instruction, hpc, hc] at hrun
  rw [run_Fx0A s rnd polls x hpc hsp hx hinst] at hrun
  cases hw : wait_for_key_press s polls with
  | error e => simp [hw] at hrun
  | ok r =>
    obtain ⟨key, s1, rest1⟩ := r
    simp only [hw, Except.ok.injEq, Prod.mk.injEq] at hrun
    obtain ⟨rfl, -⟩ := hrun
    obtain ⟨⟨b1, b2, b3, b4, b5, b6, b7, b8, b9, -⟩, hk⟩ :=
      wait_for_key_press_ok s polls key s1 rest1 hw
    have hkey1 : ∃ j, 0 ≤ j ∧ j < 0 + 16 ∧ s1.keys j = true := by
      obtain ⟨i, hi, hki⟩ := hkey
      exact ⟨i, Nat.zero_le i, by omega, hki⟩
    obtain ⟨-, a2, a3, a4⟩ := scan_keys_lowest s1.keys 16 0 hkey1
    rw [← hk] at a2 a3 a4
    have hvx : (advance { s1 with regs := store s1.regs x key } 2).regs x = key := by
      simp [advance]
    refine ⟨?_, ?_, ?_, ?_, b7, b8, b4, b2, b5, b1, b9, ?_⟩
    · rw [hvx]; omega
    · rw [hvx]; exact a3
    · rw [hvx]; exact fun j hj => a4 j (Nat.zero_le j) hj
    · show (s1.pc + 2) % 65536 = s.pc + 2
      rw [b6]; omega
    · intro k hk2
      show store s1.regs x key k = s.regs k
      rw [store_other _ _ _ _ hk2, b3]

theorem key_wait_result_witness :
    ∃ s' rest, run_instruction key_wait_example 0 key_wait_polls = .ok (s', rest) ∧
      s'.regs 3 = 10 ∧ s'.keys 10 = true ∧ s'.keys 15 = true ∧
      (∀ j, j < 10 → s'.keys j = false) ∧ s'.pc = key_wait_example.pc + 2 := by
  have hrun : ∃ s' rest,
      run_instruction key_wait_example 0 key_wait_polls = .ok (s', rest) ∧
      s'.regs 3 = 10 ∧ s'.keys 10 = true ∧ s'.keys 15 = true :=
    ⟨_, _, rfl, by decide, by decide, by decide⟩
  obtain ⟨s', rest, h, hv, h10, h15⟩ := hrun
  obtain ⟨-, -, hlow, hpc, -⟩ :=
    key_wait_result key_wait_example 0 key_wait_polls 3 s' rest (by decide) (by decide) h
      ⟨10, by decide, h10⟩
  rw [hv] at hlow
  exact ⟨s', rest, h, hv, h10, h15, hlow, hpc⟩

/-! ## Program counter -/

/-- A completed `display_sprite` changes nothing but the bitmap. -/
theorem display_sprite_frame (s : Emulator) (addr size x y : Nat) (s1 : Emulator)
    (c : Bool) (h : display_sprite s addr size x y = .ok (s1, c)) :
    ∃ fb, s1 = { s with framebuf := fb } := by
  unfold display_sprite at h
  split at h
  · cases h
  · split at h
    · cases h
    · simp only [Except.ok.injEq, Prod.mk.injEq] at h
      exact ⟨_, h.1.symm⟩

theorem advance_pc (s t : Emulator) (h : t.pc = s.pc) (hpc : s.pc < 4095) :
    (advance t 2).pc = s.pc + 2 := by
  show (t.pc + 2) % 65536 = s.pc + 2
  rw [h]; omega

/-- C10: for every state and every instruction word that is defined and is not a jump,
call, return or skip (the words of `plain_instruction`), whenever `run_instruction`
completes, the new PC equals the old PC plus exactly 2. -/
theorem plain_instruction_advances (s : Emulator) (rnd : Nat)
    (polls : List (List SDL_Event)) (s' : Emulator) (rest : List (List SDL_Event))
    (hplain : plain_instruction (fetch s))
    (hrun : run_instruction s rnd polls = .ok (s', rest)) :
    s'.pc = s.pc + 2 := by
  have hpc : s.pc < 4095 := by
    by_contra hc
    simp [run_instruction, hc] at hrun
  have hsp : s.sp < 16 := by
    by_contra hc
    simp [run_instruction, hpc, hc] at hrun
  unfold plain_instruction at hplain
  simp only [run_instruction] at hrun
  generalize fetch s = w at hplain hrun
  generalize opcode_of w = op at hplain hrun
  generalize kk_of w = kk at hplain hrun
  generalize n_of w = n at hplain hrun
  rcases hplain with ⟨h1, h2⟩ | h1 | h1 | ⟨h1, h2⟩ | h1 | h1 | h1 | ⟨h1, h2⟩
  · subst h1 h2
    simp [hpc, hsp] at hrun
    obtain ⟨rfl, -⟩ := hrun
    exact advance_pc s _ rfl hpc
  · subst h1
    simp [hpc, hsp] at hrun
    obtain ⟨rfl, -⟩ := hrun
    exact advance_pc s _ rfl hpc
  · subst h1
    simp [hpc, hsp] at hrun
    obtain ⟨rfl, -⟩ := hrun
    exact advance_pc s _ rfl hpc
  · subst h1
    have hn : n = 0 ∨ n = 1 ∨ n = 2 ∨ n = 3 ∨ n = 4 ∨ n = 5 ∨ n = 6 ∨ n = 7 ∨ n = 0xE := by
      omega
    rcases hn with rfl | rfl | rfl | rfl | rfl | rfl | rfl | rfl | rfl <;>
    · simp [hpc, hsp] at hrun
      obtain ⟨rfl, -⟩ := hrun
      exact advance_pc s _ rfl hpc
  · subst h1
    simp [hpc, hsp] at hrun
    obtain ⟨rfl, -⟩ := hrun
    exact advance_pc s _ rfl hpc
  · subst h1
    simp [hpc, hsp] at hrun
    obtain ⟨rfl, -⟩ := hrun
    exact advance_pc s _ rfl hpc
  · subst h1
    simp [hpc, hsp] at hrun
    split at hrun
    · cases hrun
    · rename_i s1 erased hd
      obtain ⟨fb, rfl⟩ := display_sprite_frame _ _ _ _ _ _ _ hd
      simp only [Except.ok.injEq, Prod.mk.injEq] at hrun
      obtain ⟨rfl, -⟩ := hrun
      exact advance_pc s _ rfl hpc
  · subst h1
    rcases h2 with rfl | rfl | rfl | rfl | rfl | rfl | rfl | rfl | rfl
    · simp [hpc, hsp] at hrun
      obtain ⟨rfl, -⟩ := hrun
      exact advance_pc s _ rfl hpc
    · simp [hpc, hsp] at hrun
      split at hrun
      · cases hrun
      · rename_i key s1 rest1 hw
        obtain ⟨⟨-, -, -, -, -, b6, -⟩, -⟩ := wait_for_key_press_ok _ _ _ _ _ hw
        simp only [Except.ok.injEq, Prod.mk.injEq] at hrun
        obtain ⟨rfl, -⟩ := hrun
        exact advance_pc s _ b6 hpc
    · simp [hpc, hsp] at hrun
      obtain ⟨rfl, -⟩ := hrun
      exact advance_pc s _ rfl hpc
    · simp [hpc, hsp] at hrun
      obtain ⟨rfl, -⟩ := hrun
      exact advance_pc s _ rfl hpc
    · simp [hpc, hsp] at hrun
      obtain ⟨rfl, -⟩ := hrun
      exact advance_pc s _ rfl hpc
    · simp [hpc, hsp] at hrun
      split at hrun
      · cases hrun
      · simp only [Except.ok.injEq, Prod.mk.injEq] at hrun
        obtain ⟨rfl, -⟩ := hrun
        exact advance_pc s _ rfl hpc
    · simp [hpc, hsp] at hrun
      split at hrun
      · cases hrun
      · simp only [Except.ok.injEq, Prod.mk.injEq] at hrun
        obtain ⟨rfl, -⟩ := hrun
        exact advance_pc s _ rfl hpc
    · simp [hpc, hsp] at hrun
      split at hrun
      · cases hrun
      · split at hrun
        · cases hrun
        · simp only [Except.ok.injEq, Prod.mk.injEq] at hrun
          obtain ⟨rfl, -⟩ := hrun
          exact advance_pc s _ rfl hpc
    · simp [hpc, hsp] at hrun
      split at hrun
      · cases hrun
      · split at hrun
        · cases hrun
        · simp only [Except.ok.injEq, Prod.mk.injEq] at hrun
          obtain ⟨rfl, -⟩ := hrun
          exact advance_pc s _ rfl hpc

theorem plain_instruction_advances_witness :
    (∃ s' rest, run_instruction add_example 0 [] = .ok (s', rest) ∧
      s'.pc = add_example.pc + 2) ∧
    (∃ s' rest, run_instruction draw_example 0 [] = .ok (s', rest) ∧
      s'.pc = draw_example.pc + 2) := by
  have h1 := run_8xy4 add_example 0 [] 0 1 (by decide) (by decide) (by decide) (by decide)
    (by decide)
  have h2 : ∃ s' rest, run_instruction draw_example 0 [] = .ok (s', rest) := ⟨_, _, rfl⟩
  obtain ⟨s2, rest2, h2⟩ := h2
  exact ⟨⟨_, _, h1, plain_instruction_advances add_example 0 [] _ _ (by decide) h1⟩,
    ⟨s2, rest2, h2, plain_instruction_advances draw_example 0 [] s2 rest2 (by decide) h2⟩⟩

/-! ## Conditional skips -/

/-- C11: for every state, 3xkk advances PC by 4 if Vx = kk and by 2 otherwise, 4xkk by 4
if Vx ≠ kk, 5xy_ by 4 if Vx = Vy, 9xy_ by 4 if Vx ≠ Vy, and, when Vx ≤ 15, Ex9E by 4 if
key Vx is pressed and ExA1 by 4 if key Vx is not pressed (`skip_taken` is that
condition); the instruction completes and the resulting state is the old one with only
PC replaced, so no register, timer, memory byte, stack entry or pixel is changed. -/
theorem conditional_skip (s : Emulator) (rnd : Nat) (polls : List (List SDL_Event))
    (c : Bool) (hpc : s.pc < 4095) (hsp : s.sp < 16)
    (h : skip_taken s (fetch s) = some c) :
    run_instruction s rnd polls =
      .ok ({ s with pc := s.pc + (if c then 4 else 2) }, polls) := by
  have hmod : ∀ k, k ≤ 4 → (s.pc + k) % 65536 = s.pc + k := fun k hk =>
    Nat.mod_eq_of_lt (by omega)
  unfold skip_taken at h
  split_ifs at h with h3 h4 h5 h9 hE1 hE2
  · cases h
    by_cases hc : s.regs (x_of (fetch s)) = kk_of (fetch s) <;>
      simp [run_instruction, advance, hpc, hsp, h3, hc, hmod]
  · cases h
    by_cases hc : s.regs (x_of (fetch s)) = kk_of (fetch s) <;>
      simp [run_instruction, advance, hpc, hsp, h4, hc, hmod]
  · cases h
    by_cases hc : s.regs (x_of (fetch s)) = s.regs (y_of (fetch s)) <;>
      simp [run_instruction, advance, hpc, hsp, h5, hc, hmod]
  · cases h
    by_cases hc : s.regs (x_of (fetch s)) = s.regs (y_of (fetch s)) <;>
      simp [run_instruction, advance, hpc, hsp, h9, hc, hmod]
  · cases h
    obtain ⟨a1, a2, -⟩ := hE1
    cases hc : s.keys (s.regs (x_of (fetch s))) <;>
      simp [run_instruction, advance, hpc, hsp, a1, a2, hc, hmod]
  · cases h
    obtain ⟨a1, a2, -⟩ := hE2
    cases hc : s.keys (s.regs (x_of (fetch s))) <;>
      simp [run_instruction, advance, hpc, hsp, a1, a2, hc, hmod]

theorem conditional_skip_witness :
    run_instruction (skip_example 0x30 0x07) 0 [] =
      .ok ({ skip_example 0x30 0x07 with pc := 0x200 + 4 }, []) ∧
    run_instruction (skip_example 0x40 0x07) 0 [] =
      .ok ({ skip_example 0x40 0x07 with pc := 0x200 + 2 }, []) ∧
    run_instruction (skip_example 0x50 0x10) 0 [] =
      .ok ({ skip_example 0x50 0x10 with pc := 0x200 + 4 }, []) ∧
    run_instruction (skip_example 0x90 0x10) 0 [] =
      .ok ({ skip_example 0x90 0x10 with pc := 0x200 + 2 }, []) ∧
    run_instruction (skip_example 0xE2 0x9E) 0 [] =
      .ok ({ skip_example 0xE2 0x9E with pc := 0x200 + 4 }, []) ∧
    run_instruction (skip_example 0xE2 0xA1) 0 [] =
      .ok ({ skip_example 0xE2 0xA1 with pc := 0x200 + 2 }, []) :=
  ⟨conditional_skip (skip_example 0x30 0x07) 0 [] true (by decide) (by decide) (by decide),
   conditional_skip (skip_example 0x40 0x07) 0 [] false (by decide) (by decide) (by decide),
   conditional_skip (skip_example 0x50 0x10) 0 [] true (by decide) (by decide) (by decide),
   conditional_skip (skip_example 0x90 0x10) 0 [] false (by decide) (by decide) (by decide),
   conditional_skip (skip_example 0xE2 0x9E) 0 [] true (by decide) (by decide) (by decide),
   conditional_skip (skip_example 0xE2 0xA1) 0 [] false (by decide) (by decide) (by decide)⟩

/-! ## Decode errors -/

theorem display_sprite_error (s : Emulator) (addr size x y : Nat) (e : Stop × Emulator)
    (h : display_sprite s addr size x y = .error e) : e.1 = .assert_fail := by
  unfold display_sprite at h
  split at h
  · cases h; rfl
  · split at h
    · cases h; rfl
    · cases h

theorem wait_for_key_press_error (s : Emulator) (polls : List (List SDL_Event))
    (e : Stop × Emulator)
    (h : wait_for_key_press s polls = .error e) : e.1 = .still_waiting := by
  induction polls generalizing s with
  | nil =>
    unfold wait_for_key_press at h
    split at h
    · cases h; rfl
    · cases h
  | cons evs polls ih =>
    unfold wait_for_key_press at h
    split at h
    · exact ih _ h
    · cases h

/-- The stops of `run_instruction` with `unknown_inst`: they happen exactly for the
words of `undefined_word`, and the state at the stop is the state at entry. -/
theorem unknown_inst_stop (s : Emulator) (rnd : Nat) (polls : List (List SDL_Event))
    (st : Emulator) (hpc : s.pc ≤ 4094) (hsp : s.sp ≤ 15) :
    run_instruction s rnd polls = .error (.unknown_inst, st) ↔
      undefined_word (fetch s) ∧ s = st := by
  have hpc1 : s.pc < 4095 := by omega
  have hsp1 : s.sp < 16 := by omega
  have hop : opcode_of (fetch s) < 16 := by rw [opcode_of_eq]; omega
  have hn : n_of (fetch s) < 16 := by rw [n_of_eq]; omega
  unfold undefined_word
  simp only [run_instruction]
  generalize fetch s = w at hop hn ⊢
  generalize opcode_of w = op at hop ⊢
  generalize kk_of w = kk
  generalize n_of w = n at hn ⊢
  interval_cases op
  · by_cases h1 : kk = 0xE0
    · simp [hpc1, hsp1, h1]
    · by_cases h2 : kk = 0xEE
      · simp [hpc1, hsp1, h2]
      · simp [hpc1, hsp1, h1, h2]
  · simp [hpc1, hsp1]
  · simp [hpc1, hsp1]
  · simp [hpc1, hsp1]
  · simp [hpc1, hsp1]
  · simp [hpc1, hsp1]
  · simp [hpc1, hsp1]
  · simp [hpc1, hsp1]
  · interval_cases n <;> simp [hpc1, hsp1]
  · simp [hpc1, hsp1]
  · simp [hpc1, hsp1]
  · simp [hpc1, hsp1]
  · simp [hpc1, hsp1]
  · simp only [hpc1, hsp1]
    simp
    split
    · rename_i e hd
      have := display_sprite_error _ _ _ _ _ _ hd
      intro hcontra
      injection hcontra with he
      rw [he] at this
      cases this
    · simp
  · by_cases h1 : kk = 0x9E
    · simp [hpc1, hsp1, h1]
    · by_cases h2 : kk = 0xA1
      · simp [hpc1, hsp1, h2]
      · simp [hpc1, hsp1, h1, h2]
  · by_cases h1 : kk = 0x07
    · simp [hpc1, hsp1, h1]
    by_cases h2 : kk = 0x0A
    · simp only [hpc1, hsp1, h2]
      simp
      split
      · rename_i e hw
        have := wait_for_key_press_error _ _ _ hw
        intro hcontra
        injection hcontra with he
        rw [he] at this
        cases this
      · simp
    by_cases h3 : kk = 0x15
    · simp [hpc1, hsp1, h3]
    by_cases h4 : kk = 0x18
    · simp [hpc1, hsp1, h4]
    by_cases h5 : kk = 0x1E
    · simp [hpc1, hsp1, h5]
    by_cases h6 : kk = 0x29
    · simp [hpc1, hsp1, h6]
      split <;> simp
    by_cases h7 : kk = 0x33
    · simp [hpc1, hsp1, h7]
      split <;> simp
    by_cases h8 : kk = 0x55
    · simp [hpc1, hsp1, h8]
      split
      · simp
      · split <;> simp
    by_cases h9 : kk = 0x65
    · simp [hpc1, hsp1, h9]
      split
      · simp
      · split <;> simp
    simp [hpc1, hsp1, h1, h2, h3, h4, h5, h6, h7, h8, h9]

/-- C12: for every state that passes the entry checks (PC ≤ 4094, sp ≤ 15), with fetched
word w, `run_instruction` ends in a fatal decode error if and only if w is one of the
words of `undefined_word`: family 0 with kk neither 0xE0 nor 0xEE, family 8 with n not in
0..7 or 0xE, family E with kk neither 0x9E nor 0xA1, family F with kk not in 07, 0A, 15,
18, 1E, 29, 33, 55, 65; and in that case the machine state at the stop is the state the
instruction was entered with: no part of it has been modified. -/
theorem decode_error_iff (s : Emulator) (rnd : Nat) (polls : List (List SDL_Event))
    (hpc : s.pc ≤ 4094) (hsp : s.sp ≤ 15) :
    ((∃ st, run_instruction s rnd polls = .error (.unknown_inst, st)) ↔
      undefined_word (fetch s)) ∧
    (∀ st, run_instruction s rnd polls = .error (.unknown_inst, st) → st = s) := by
  refine ⟨⟨?_, ?_⟩, ?_⟩
  · rintro ⟨st, h⟩
    exact ((unknown_inst_stop s rnd polls st hpc hsp).mp h).1
  · intro h
    exact ⟨s, (unknown_inst_stop s rnd polls s hpc hsp).mpr ⟨h, rfl⟩⟩
  · intro st h
    exact ((unknown_inst_stop s rnd polls st hpc hsp).mp h).2.symm

theorem decode_error_iff_witness :
    run_instruction bad_word_example 0 [] = .error (.unknown_inst, bad_word_example) ∧
    ¬ ∃ st, run_instruction add_example 0 [] = .error (.unknown_inst, st) := by
  obtain ⟨h1, h2⟩ := decode_error_iff bad_word_example 0 [] (by decide) (by decide)
  obtain ⟨st, h⟩ := h1.mpr (by decide)
  have hst := h2 st h
  subst hst
  exact ⟨h, fun h3 =>
    absurd ((decode_error_iff add_example 0 [] (by decide) (by decide)).1.mp h3)
      (by decide)⟩

/-! ## Timers -/

/-- C13: for timer values (d, s), `update_timers` leaves delay_timer = d - 1 if d > 0 and
0 if d = 0, leaves sound_timer = s - 1 if s > 0 and 0 if s = 0, and queues the sound if
and only if s = 1; no other part of the machine changes. -/
theorem timer_tick (s : Emulator) :
    (update_timers s).1.delay_timer = (if s.delay_timer > 0 then s.delay_timer - 1 else 0) ∧
    (update_timers s).1.sound_timer = (if s.sound_timer > 0 then s.sound_timer - 1 else 0) ∧
    ((update_timers s).2 = true ↔ s.sound_timer = 1) ∧
    (update_timers s).1.memory = s.memory ∧ (update_timers s).1.stack = s.stack ∧
    (update_timers s).1.regs = s.regs ∧ (update_timers s).1.I = s.I ∧
    (update_timers s).1.sp = s.sp ∧ (update_timers s).1.pc = s.pc ∧
    (update_timers s).1.keys = s.keys ∧ (update_timers s).1.framebuf = s.framebuf ∧
    (update_timers s).1.should_draw = s.should_draw ∧
    (update_timers s).1.running = s.running := by
  unfold update_timers
  by_cases hd : s.delay_timer > 0 <;> by_cases hs : s.sound_timer > 0 <;>
    simp [hd, hs] <;> omega

/-! ## Instructions evaluated at inputs where they leave their arrays or mix operands -/

/-- C14 (the code at the failing input): with I = 4095 and x = 1, so that I + x = 4096,
neither `F155` nor `F165` stops with an error.  `F155` completes after storing V1 in
cell 4096, one past the 4096-byte memory, and `F165` completes after loading V1 from
that cell. -/
theorem register_block_past_memory :
    (block_store_example.I + 1 = 4096 ∧ fetch block_store_example = 0xF155 ∧
      ∃ s', run_instruction block_store_example 0 [] = .ok (s', []) ∧
        s'.memory 4095 = 0x11 ∧ s'.memory 4096 = 0x22 ∧
        block_store_example.memory 4096 = 0) ∧
    (block_load_example.I + 1 = 4096 ∧ fetch block_load_example = 0xF165 ∧
      ∃ s', run_instruction block_load_example 0 [] = .ok (s', []) ∧
        s'.regs 0 = 0x33 ∧ s'.regs 1 = 0x44) :=
  ⟨⟨by decide, by decide, _, rfl, by decide, by decide, by decide⟩,
   ⟨by decide, by decide, _, rfl, by decide, by decide⟩⟩

/-- C15 (the code at the failing inputs): the flag is written first and the result is
then computed from the register file that already holds it.  `80F4` with V0 = 200 and
VF = 100 leaves V0 = 201 (200 plus the carry), not (200 + 100) mod 256 = 44; `8F04`
with VF = 200 and V0 = 100 leaves VF = 101 (the carry plus 100), not the carry 1. -/
theorem flag_written_before_result :
    (fetch add_flag_operand_example = 0x80F4 ∧
      add_flag_operand_example.regs 0 = 200 ∧ add_flag_operand_example.regs 0xF = 100 ∧
      ∃ s', run_instruction add_flag_operand_example 0 [] = .ok (s', []) ∧
        s'.regs 0 = 201 ∧ s'.regs 0xF = 1) ∧
    (fetch add_flag_target_example = 0x8F04 ∧
      add_flag_target_example.regs 0xF = 200 ∧ add_flag_target_example.regs 0 = 100 ∧
      ∃ s', run_instruction add_flag_target_example 0 [] = .ok (s', []) ∧
        s'.regs 0xF = 101) :=
  ⟨⟨by decide, by decide, by decide, _, rfl, by decide, by decide⟩,
   ⟨by decide, by decide, by decide, _, rfl, by decide⟩⟩

/-- C18 (the code at the failing input): `00E0` executed with a lit pixel and the dirty
flag clear completes with that pixel cleared, so the bitmap has changed, and with the
dirty flag still clear. -/
theorem clear_screen_leaves_dirty_flag :
    fetch cls_example = 0x00E0 ∧ cls_example.framebuf (10 + 10 * 64) = true ∧
    cls_example.should_draw = false ∧
    ∃ s', run_instruction cls_example 0 [] = .ok (s', []) ∧
      s'.framebuf (10 + 10 * 64) = false ∧ s'.framebuf ≠ cls_example.framebuf ∧
      s'.should_draw = false := by
  refine ⟨by decide, by decide, by decide, _, rfl, by decide, ?_, by decide⟩
  intro h
  have h2 := congrFun h (10 + 10 * 64)
  revert h2
  decide

/-! ## Where the program counter goes -/

/-- The program counter after any completed instruction: the target of a jump or call,
the popped address plus 2 for a return, PC + 2 or PC + 4 otherwise. -/
theorem run_instruction_pc (s : Emulator) (rnd : Nat) (polls : List (List SDL_Event))
    (s' : Emulator) (rest : List (List SDL_Event))
    (hrun : run_instruction s rnd polls = .ok (s', rest)) :
    (opcode_of (fetch s) = 0x1 ∧ s'.pc = nnn_of (fetch s)) ∨
    (opcode_of (fetch s) = 0x2 ∧ s'.pc = nnn_of (fetch s)) ∨
    (opcode_of (fetch s) = 0xB ∧ s'.pc = (s.regs 0 + nnn_of (fetch s)) % 65536) ∨
    (opcode_of (fetch s) = 0x0 ∧ kk_of (fetch s) = 0xEE ∧
      s'.pc = (s.stack s.sp + 2) % 65536) ∨
    s'.pc = s.pc + 2 ∨ s'.pc = s.pc + 4 := by
  have hpc : s.pc < 4095 := by
    by_contra hc
    simp [run_instruction, hc] at hrun
  have hsp : s.sp < 16 := by
    by_contra hc
    simp [run_instruction, hpc, hc] at hrun
  have hop : opcode_of (fetch s) < 16 := by rw [opcode_of_eq]; omega
  have hn : n_of (fetch s) < 16 := by rw [n_of_eq]; omega
  have h2 : ∀ t : Emulator, t.pc = s.pc → (advance t 2).pc = s.pc + 2 :=
    fun t ht => advance_pc s t ht hpc
  have hk : ∀ k : Nat, k = 2 ∨ k = 4 →
      (advance s k).pc = s.pc + 2 ∨ (advance s k).pc = s.pc + 4 := by
    intro k hk
    show (s.pc + k) % 65536 = s.pc + 2 ∨ (s.pc + k) % 65536 = s.pc + 4
    omega
  simp only [run_instruction] at hrun
  generalize fetch s = w at hop hn hrun ⊢
  generalize opcode_of w = op at hop hrun ⊢
  generalize kk_of w = kk at hrun ⊢
  generalize n_of w = n at hn hrun
  generalize nnn_of w = nnn at hrun ⊢
  interval_cases op
  · by_cases h1 : kk = 0xE0
    · subst h1
      simp [hpc, hsp] at hrun
      obtain ⟨rfl, -⟩ := hrun
      exact Or.inr (Or.inr (Or.inr (Or.inr (Or.inl (h2 _ rfl)))))
    · by_cases he : kk = 0xEE
      · subst he
        simp [hpc, hsp] at hrun
        obtain ⟨rfl, -⟩ := hrun
        exact Or.inr (Or.inr (Or.inr (Or.inl ⟨rfl, rfl, rfl⟩)))
      · simp [hpc, hsp, h1, he] at hrun
  · simp [hpc, hsp] at hrun
    obtain ⟨rfl, -⟩ := hrun
    exact Or.inl ⟨rfl, rfl⟩
  · simp [hpc, hsp] at hrun
    obtain ⟨rfl, -⟩ := hrun
    exact Or.inr (Or.inl ⟨rfl, rfl⟩)
  · simp [hpc, hsp] at hrun
    obtain ⟨rfl, -⟩ := hrun
    exact Or.inr (Or.inr (Or.inr (Or.inr (hk _ (by split_ifs <;> simp)))))
  · simp [hpc, hsp] at hrun
    obtain ⟨rfl, -⟩ := hrun
    exact Or.inr (Or.inr (Or.inr (Or.inr (hk _ (by split_ifs <;> simp)))))
  · simp [hpc, hsp] at hrun
    obtain ⟨rfl, -⟩ := hrun
    exact Or.inr (Or.inr (Or.inr (Or.inr (hk _ (by split_ifs <;> simp)))))
  · simp [hpc, hsp] at hrun
    obtain ⟨rfl, -⟩ := hrun
    exact Or.inr (Or.inr (Or.inr (Or.inr (Or.inl (h2 _ rfl)))))
  · simp [hpc, hsp] at hrun
    obtain ⟨rfl, -⟩ := hrun
    exact Or.inr (Or.inr (Or.inr (Or.inr (Or.inl (h2 _ rfl)))))
  · interval_cases n <;> simp [hpc, hsp] at hrun <;>
    · obtain ⟨rfl, -⟩ := hrun
      exact Or.inr (Or.inr (Or.inr (Or.inr (Or.inl (h2 _ rfl)))))
  · simp [hpc, hsp] at hrun
    obtain ⟨rfl, -⟩ := hrun
    exact Or.inr (Or.inr (Or.inr (Or.inr (hk _ (by split_ifs <;> simp)))))
  · simp [hpc, hsp] at hrun
    obtain ⟨rfl, -⟩ := hrun
    exact Or.inr (Or.inr (Or.inr (Or.inr (Or.inl (h2 _ rfl)))))
  · simp [hpc, hsp] at hrun
    obtain ⟨rfl, -⟩ := hrun
    exact Or.inr (Or.inr (Or.inl ⟨rfl, rfl⟩))
  · simp [hpc, hsp] at hrun
    obtain ⟨rfl, -⟩ := hrun
    exact Or.inr (Or.inr (Or.inr (Or.inr (Or.inl (h2 _ rfl)))))
  · simp [hpc, hsp] at hrun
    split at hrun
    · cases hrun
    · rename_i s1 erased hd
      obtain ⟨fb, rfl⟩ := display_sprite_frame _ _ _ _ _ _ _ hd
      simp only [Except.ok.injEq, Prod.mk.injEq] at hrun
      obtain ⟨rfl, -⟩ := hrun
      exact Or.inr (Or.inr (Or.inr (Or.inr (Or.inl (h2 _ rfl)))))
  · by_cases h1 : kk = 0x9E
    · subst h1
      simp [hpc, hsp] at hrun
      obtain ⟨rfl, -⟩ := hrun
      exact Or.inr (Or.inr (Or.inr (Or.inr (hk _ (by split_ifs <;> simp)))))
    · by_cases h3 : kk = 0xA1
      · subst h3
        simp [hpc, hsp] at hrun
        obtain ⟨rfl, -⟩ := hrun
        exact Or.inr (Or.inr (Or.inr (Or.inr (hk _ (by split_ifs <;> simp)))))
      · simp [hpc, hsp, h1, h3] at hrun
  · refine Or.inr (Or.inr (Or.inr (Or.inr (Or.inl ?_))))
    by_cases k1 : kk = 0x07
    · subst k1
      simp [hpc, hsp] at hrun
      obtain ⟨rfl, -⟩ := hrun
      exact h2 _ rfl
    by_cases k2 : kk = 0x0A
    · subst k2
      simp [hpc, hsp] at hrun
      split at hrun
      · cases hrun
      · rename_i key s1 rest1 hw
        obtain ⟨⟨-, -, -, -, -, b6, -⟩, -⟩ := wait_for_key_press_ok _ _ _ _ _ hw
        simp only [Except.ok.injEq, Prod.mk.injEq] at hrun
        obtain ⟨rfl, -⟩ := hrun
        exact h2 _ b6
    by_cases k3 : kk = 0x15
    · subst k3
      simp [hpc, hsp] at hrun
      obtain ⟨rfl, -⟩ := hrun
      exact h2 _ rfl
    by_cases k4 : kk = 0x18
    · subst k4
      simp [hpc, hsp] at hrun
      obtain ⟨rfl, -⟩ := hrun
      exact h2 _ rfl
    by_cases k5 : kk = 0x1E
    · subst k5
      simp [hpc, hsp] at hrun
      obtain ⟨rfl, -⟩ := hrun
      exact h2 _ rfl
    by_cases k6 : kk = 0x29
    · subst k6
      simp [hpc, hsp] at hrun
      split at hrun
      · cases hrun
      · simp only [Except.ok.injEq, Prod.mk.injEq] at hrun
        obtain ⟨rfl, -⟩ := hrun
        exact h2 _ rfl
    by_cases k7 : kk = 0x33
    · subst k7
      simp [hpc, hsp] at hrun
      split at hrun
      · cases hrun
      · simp only [Except.ok.injEq, Prod.mk.injEq] at hrun
        obtain ⟨rfl, -⟩ := hrun
        exact h2 _ rfl
    by_cases k8 : kk = 0x55
    · subst k8
      simp [hpc, hsp] at hrun
      split at hrun
      · cases hrun
      · split at hrun
        · cases hrun
        · simp only [Except.ok.injEq, Prod.mk.injEq] at hrun
          obtain ⟨rfl, -⟩ := hrun
          exact h2 _ rfl
    by_cases k9 : kk = 0x65
    · subst k9
      simp [hpc, hsp] at hrun
      split at hrun
      · cases hrun
      · split at hrun
        · cases hrun
        · simp only [Except.ok.injEq, Prod.mk.injEq] at hrun
          obtain ⟨rfl, -⟩ := hrun
          exact h2 _ rfl
    simp [hpc, hsp, k1, k2, k3, k4, k5, k6, k7, k8, k9] at hrun

/-- C17, as stated, fails for jumps, calls and returns: from the even PC 0x200, `1201`
and `2201` leave PC = 0x201, `B200` with V0 = 1 leaves PC = 0x201, and `00EE` with the
address 0x301 on the stack leaves PC = 0x303. -/
theorem pc_alignment_counterexample :
    (jump_odd_example.pc % 2 = 0 ∧
      ∃ s', run_instruction jump_odd_example 0 [] = .ok (s', []) ∧ s'.pc % 2 = 1) ∧
    (call_odd_example.pc % 2 = 0 ∧
      ∃ s', run_instruction call_odd_example 0 [] = .ok (s', []) ∧ s'.pc % 2 = 1) ∧
    (jump_v0_odd_example.pc % 2 = 0 ∧
      ∃ s', run_instruction jump_v0_odd_example 0 [] = .ok (s', []) ∧ s'.pc % 2 = 1) ∧
    (return_odd_example.pc % 2 = 0 ∧
      ∃ s', run_instruction return_odd_example 0 [] = .ok (s', []) ∧ s'.pc % 2 = 1) :=
  ⟨⟨by decide, _, rfl, by decide⟩, ⟨by decide, _, rfl, by decide⟩,
   ⟨by decide, _, rfl, by decide⟩, ⟨by decide, _, rfl, by decide⟩⟩

/-- C17 (amended): PC is 0x200 in the state the constructor builds, before and after
the program is loaded; and for every state with even PC, whenever `run_instruction`
completes, the new PC is even, provided the target nnn is even when the instruction is
1nnn or 2nnn, V0 + nnn is even when it is Bnnn, and the stack entry stack[sp] is even
when it is 00EE. -/
theorem pc_stays_even (s : Emulator) (rnd : Nat) (polls : List (List SDL_Event))
    (s' : Emulator) (rest : List (List SDL_Event))
    (heven : s.pc % 2 = 0)
    (hrun : run_instruction s rnd polls = .ok (s', rest))
    (hjump : opcode_of (fetch s) = 0x1 ∨ opcode_of (fetch s) = 0x2 →
      nnn_of (fetch s) % 2 = 0)
    (hjv0 : opcode_of (fetch s) = 0xB → (s.regs 0 + nnn_of (fetch s)) % 2 = 0)
    (hret : opcode_of (fetch s) = 0x0 ∧ kk_of (fetch s) = 0xEE → s.stack s.sp % 2 = 0) :
    power_on.pc = 0x200 ∧
    (∀ rom s0, load power_on rom = .ok s0 → s0.pc = 0x200) ∧
    s'.pc % 2 = 0 := by
  refine ⟨rfl, ?_, ?_⟩
  · intro rom s0 h
    unfold load at h
    split at h
    · cases h
    · cases h
      rfl
  · rcases run_instruction_pc s rnd polls s' rest hrun with
      ⟨h1, h2⟩ | ⟨h1, h2⟩ | ⟨h1, h2⟩ | ⟨h1, h2, h3⟩ | h | h
    · rw [h2]; exact hjump (Or.inl h1)
    · rw [h2]; exact hjump (Or.inr h1)
    · have := hjv0 h1
      rw [h2]; omega
    · have := hret ⟨h1, h2⟩
      rw [h3]; omega
    · rw [h]; omega
    · rw [h]; omega

theorem pc_stays_even_witness :
    ∃ s', run_instruction call_example 0 [] = .ok (s', []) ∧ s'.pc = 0x204 ∧
      s'.pc % 2 = 0 := by
  have h : ∃ s', run_instruction call_example 0 [] = .ok (s', []) ∧ s'.pc = 0x204 :=
    ⟨_, rfl, by decide⟩
  obtain ⟨s', h, hpc⟩ := h
  exact ⟨s', h, hpc,
    (pc_stays_even call_example 0 [] s' [] (by decide) h (by decide) (by decide)
      (by decide)).2.2⟩

/-! ## Quit during the key wait -/

theorem keys_none_iff (keys : Nat → Bool) :
    keys_none keys = true ↔ ∀ i, i < 16 → keys i = false := by
  simp [keys_none, List.all_eq_true, List.mem_range]

theorem scan_keys_none (keys : Nat → Bool) (n i : Nat)
    (h : ∀ j, i ≤ j → j < i + n → keys j = false) : scan_keys keys n i = 255 := by
  induction n generalizing i with
  | zero => rfl
  | succ n ih =>
    unfold scan_keys
    rw [h i (le_refl i) (by omega)]
    simp only [Bool.false_eq_true, if_false]
    exact ih (i + 1) (fun j h1 h2 => h j (by omega) (by omega))

/-- When `wait_for_key_press` returns, the loop condition `keys.none() && running`
is false in the state it returns. -/
theorem wait_for_key_press_exit (s : Emulator) (polls : List (List SDL_Event))
    (key : Nat) (s1 : Emulator) (rest : List (List SDL_Event))
    (h : wait_for_key_press s polls = .ok (key, s1, rest)) :
    (keys_none s1.keys && s1.running) = false := by
  induction polls generalizing s with
  | nil =>
    unfold wait_for_key_press at h
    split at h
    · cases h
    · rename_i hc
      simp only [Except.ok.injEq, Prod.mk.injEq] at h
      obtain ⟨-, rfl, -⟩ := h
      simpa using hc
  | cons evs polls ih =>
    unfold wait_for_key_press at h
    split at h
    · exact ih _ h
    · rename_i hc
      simp only [Except.ok.injEq, Prod.mk.injEq] at h
      obtain ⟨-, rfl, -⟩ := h
      simpa using hc

theorem update_timers_eq (s : Emulator) :
    update_timers s =
      ({ s with
          delay_timer := if s.delay_timer > 0 then s.delay_timer - 1 else 0,
          sound_timer := if s.sound_timer > 0 then s.sound_timer - 1 else 0 },
       decide (s.sound_timer = 1)) := by
  unfold update_timers
  by_cases hd : s.delay_timer > 0 <;> by_cases hs : s.sound_timer > 0
  · simp only [hd, hs, if_true]
    congr 1
    simp only [decide_eq_decide]
    omega
  · have h0 : s.sound_timer = 0 := by omega
    simp only [hd, hs, if_true, if_false]
    congr 1
    · cases s; simp_all
    · simp [h0]
  · have h0 : s.delay_timer = 0 := by omega
    simp only [hd, hs, if_true, if_false]
    congr 1
    · cases s; simp_all
    · simp only [decide_eq_decide]
      omega
  · have h0 : s.delay_timer = 0 := by omega
    have h1 : s.sound_timer = 0 := by omega
    simp only [hd, hs, if_false]
    congr 1
    · cases s; simp_all
    · simp [h1]

theorem update_screen_eq (s : Emulator) :
    (update_screen s).1 = { s with should_draw := false } := by
  unfold update_screen
  cases h : s.should_draw
  · simp
    cases s; simp_all
  · simp

/-- C20, as stated, fails: in a cycle whose `F30A` is waiting with no key down when the
window is closed, the cycle ends with `running` clear and no key down, but V3 has gone
from 7 to 255, PC from 0x200 to 0x202, and the timers have been ticked from 5 and 3 to
4 and 2. -/
theorem quit_during_key_wait_counterexample :
    quit_wait_example.regs 3 = 7 ∧ quit_wait_example.pc = 0x200 ∧
    quit_wait_example.delay_timer = 5 ∧ quit_wait_example.sound_timer = 3 ∧
    ∃ s' beep rest, run_cycle quit_wait_example 0 quit_wait_polls = .ok (s', beep, rest) ∧
      keys_none s'.keys = true ∧ s'.running = false ∧
      s'.regs 3 = 255 ∧ s'.pc = 0x202 ∧ s'.delay_timer = 4 ∧ s'.sound_timer = 2 :=
  ⟨by decide, by decide, by decide, by decide, _, _, _, rfl, by decide, by decide,
    by decide, by decide, by decide, by decide⟩

/-- A cycle that executes `Fx0A` and completes with no key down: `running` is clear,
255 has been stored in Vx, PC has advanced by 2, the timers have been ticked, and
everything else is as it was before the cycle. -/
theorem key_wait_cycle_without_key (s : Emulator) (rnd : Nat) (polls : List (List SDL_Event))
    (x : Nat) (s' : Emulator) (beep : Bool) (rest : List (List SDL_Event))
    (hx : x < 16) (hinst : fetch s = 0xF000 + 0x100 * x + 0x0A)
    (hrun : run_cycle s rnd polls = .ok (s', beep, rest))
    (hnone : keys_none s'.keys = true) :
    s'.running = false ∧ s'.regs x = 255 ∧ (∀ k, k ≠ x → s'.regs k = s.regs k) ∧
      s'.pc = s.pc + 2 ∧
      s'.delay_timer = (if s.delay_timer > 0 then s.delay_timer - 1 else 0) ∧
      s'.sound_timer = (if s.sound_timer > 0 then s.sound_timer - 1 else 0) ∧
      (beep = true ↔ s.sound_timer = 1) ∧
      s'.I = s.I ∧ s'.stack = s.stack ∧ s'.sp = s.sp ∧ s'.memory = s.memory ∧
      s'.framebuf = s.framebuf := by
  unfold run_cycle at hrun
  obtain ⟨a1, a2, a3, a4, a5, a6, a7, a8, a9, -⟩ := update_keys_same s (polls.headD [])
  generalize update_keys s (polls.headD []) = s0 at hrun a1 a2 a3 a4 a5 a6 a7 a8 a9
  have hfetch : fetch s0 = 0xF000 + 0x100 * x + 0x0A := by
    rw [← hinst]
    simp only [fetch, a1, a6]
  cases hri : run_instruction s0 rnd polls.tail with
  | error e => simp [hri] at hrun
  | ok r =>
    obtain ⟨sI, restI⟩ := r
    simp only [hri, Except.ok.injEq, Prod.mk.injEq] at hrun
    obtain ⟨hs', hbeep, -⟩ := hrun
    have hpc : s0.pc < 4095 := by
      by_contra hc
      simp [run_instruction, hc] at hri
    have hsp : s0.sp < 16 := by
      by_contra hc
      simp [run_instruction, hpc, hc] at hri
    rw [run_Fx0A s0 rnd polls.tail x hpc hsp hx hfetch] at hri
    cases hw : wait_for_key_press s0 polls.tail with
    | error e => simp [hw] at hri
    | ok r1 =>
      obtain ⟨key, s1, rest1⟩ := r1
      simp only [hw, Except.ok.injEq, Prod.mk.injEq] at hri
      obtain ⟨hsI, -⟩ := hri
      obtain ⟨⟨b1, b2, b3, b4, b5, b6, b7, b8, b9, -⟩, hk⟩ :=
        wait_for_key_press_ok s0 polls.tail key s1 rest1 hw
      have hexit := wait_for_key_press_exit s0 polls.tail key s1 rest1 hw
      rw [update_timers_eq, update_screen_eq] at hs'
      rw [update_timers_eq] at hbeep
      subst hs' hbeep hsI
      have hnone1 : keys_none s1.keys = true := hnone
      have hkey : key = 255 := by
        rw [hk]
        exact scan_keys_none _ _ _ (fun j _ hj => (keys_none_iff _).mp hnone1 j (by omega))
      rw [hnone1, Bool.true_and] at hexit
      refine ⟨hexit, ?_, ?_, ?_, ?_, ?_, ?_, ?_, ?_, ?_, ?_, ?_⟩
      · show store s1.regs x key x = 255
        rw [store_same, hkey]
      · intro k hkx
        show store s1.regs x key k = s.regs k
        rw [store_other _ _ _ _ hkx, b3, a3]
      · show (s1.pc + 2) % 65536 = s.pc + 2
        rw [b6] at *
        rw [← a6]
        omega
      · show (if s1.delay_timer > 0 then s1.delay_timer - 1 else 0) = _
        rw [b7, a7]
      · show (if s1.sound_timer > 0 then s1.sound_timer - 1 else 0) = _
        rw [b8, a8]
      · show decide (s1.sound_timer = 1) = true ↔ _
        rw [b8, a8]
        simp
      · show s1.I = s.I
        rw [b4, a4]
      · show s1.stack = s.stack
        rw [b2, a2]
      · show s1.sp = s.sp
        rw [b5, a5]
      · show s1.memory = s.memory
        rw [b1, a1]
      · show s1.framebuf = s.framebuf
        rw [b9, a9]

/-! ## The sprite loop against the torus reference -/

/-- The test `c & (1 << k)` of the sprite loop is the test of bit `k` of `c`. -/
theorem and_shift_ne_zero_iff (c k : Nat) : c &&& (1 <<< k) ≠ 0 ↔ c.testBit k = true := by
  rw [Nat.one_shiftLeft, Nat.and_comm, Nat.two_pow_and]
  cases h : c.testBit k <;> simp

theorem mem_row_pixels (c x y i k : Nat) :
    k ∈ row_pixels c x y i ↔
      ∃ j, j < 8 ∧ c.testBit (7 - j) = true ∧ k = (x + j) % 64 + (y + i) % 32 * 64 := by
  unfold row_pixels FRAMEBUF_W FRAMEBUF_H
  simp only [List.mem_map, List.mem_filter, List.mem_range, decide_eq_true_eq,
    and_shift_ne_zero_iff]
  constructor
  · rintro ⟨j, ⟨hj, hb⟩, rfl⟩
    exact ⟨j, hj, hb, rfl⟩
  · rintro ⟨j, hj, hb, rfl⟩
    exact ⟨j, ⟨hj, hb⟩, rfl⟩

theorem mem_sprite_pixels (memory : Nat → Nat) (addr size x y k : Nat) :
    k ∈ sprite_pixels memory addr size x y ↔
      ∃ i j, i < size ∧ j < 8 ∧ (memory (addr + i)).testBit (7 - j) = true ∧
        k = (x + j) % 64 + (y + i) % 32 * 64 := by
  unfold sprite_pixels
  simp only [List.mem_flatMap, List.mem_range, mem_row_pixels]
  constructor
  · rintro ⟨i, hi, j, hj, hb, rfl⟩
    exact ⟨i, j, hi, hj, hb, rfl⟩
  · rintro ⟨i, j, hi, hj, hb, rfl⟩
    exact ⟨i, hi, j, hj, hb, rfl⟩

theorem nodup_row_pixels (c x y i : Nat) : (row_pixels c x y i).Nodup := by
  unfold row_pixels FRAMEBUF_W FRAMEBUF_H
  apply List.Nodup.map_on
  · intro a ha b hb hab
    simp only [List.mem_filter, List.mem_range] at ha hb
    omega
  · exact List.Nodup.filter _ (List.nodup_range 8)

/-- With at most 32 rows, `display_sprite` plots no pixel twice. -/
theorem nodup_sprite_pixels (memory : Nat → Nat) (addr size x y : Nat) (hsize : size ≤ 32) :
    (sprite_pixels memory addr size x y).Nodup := by
  unfold sprite_pixels
  rw [List.nodup_flatMap]
  refine ⟨fun i _ => nodup_row_pixels _ _ _ _, ?_⟩
  refine List.Pairwise.imp_of_mem ?_ (List.pairwise_lt_range size)
  intro a b ha hb hab
  simp only [List.mem_range] at ha hb
  show List.Disjoint _ _
  intro k hka hkb
  obtain ⟨j1, hj1, -, h1⟩ := (mem_row_pixels _ _ _ _ _).mp hka
  obtain ⟨j2, hj2, -, h2⟩ := (mem_row_pixels _ _ _ _ _).mp hkb
  omega

theorem toggled_of_not_mem (ps : List Nat) (k : Nat) (h : k ∉ ps) : toggled ps k = false := by
  cases ht : toggled ps k
  · rfl
  · exact absurd (mem_of_toggled ps k ht) h

theorem toggled_of_nodup (ps : List Nat) (k : Nat) (hnd : ps.Nodup) (h : k ∈ ps) :
    toggled ps k = true := by
  induction ps with
  | nil => simp at h
  | cons p ps ih =>
    rw [List.nodup_cons] at hnd
    by_cases hk : k = p
    · subst hk
      simp [toggled, toggled_of_not_mem ps k hnd.1]
    · have hmem : k ∈ ps := by
        rcases List.mem_cons.mp h with h1 | h1
        · exact absurd h1 hk
        · exact h1
      simp [toggled, hk, ih hnd.2 hmem]

/-- Plotting a list of distinct pixels reports an erased pixel exactly when one of them
is lit in the bitmap it starts from (or one was reported before). -/
theorem foldl_plot_snd_nodup (ps : List Nat) (fb : Nat → Bool) (e : Bool) (hnd : ps.Nodup) :
    (ps.foldl plot (fb, e)).2 = true ↔ e = true ∨ ∃ k, k ∈ ps ∧ fb k = true := by
  induction ps generalizing fb e with
  | nil => simp
  | cons p ps ih =>
    rw [List.nodup_cons] at hnd
    rw [List.foldl_cons, plot, ih _ _ hnd.2]
    constructor
    · rintro (h | ⟨k, hk, hlit⟩)
      · rcases Bool.or_eq_true_iff.mp h with h1 | h1
        · exact Or.inl h1
        · exact Or.inr ⟨p, List.mem_cons_self _ _, h1⟩
      · have hkp : k ≠ p := fun e1 => hnd.1 (e1 ▸ hk)
        rw [store_other _ _ _ _ hkp] at hlit
        exact Or.inr ⟨k, List.mem_cons_of_mem _ hk, hlit⟩
    · rintro (h | ⟨k, hk, hlit⟩)
      · exact Or.inl (by simp [h])
      · rcases List.mem_cons.mp hk with h1 | h1
        · subst h1
          exact Or.inl (by simp [hlit])
        · have hkp : k ≠ p := fun e1 => hnd.1 (e1 ▸ h1)
          exact Or.inr ⟨k, h1, by rw [store_other _ _ _ _ hkp]; exact hlit⟩

/-- C19: for every grid g, memory m, addr and size ≤ 15 with addr + size ≤ 4096, and
coordinates x, y, `display_sprite` returns, and afterwards the pixel at column px, row
py is g(px, py) XOR [there are i < size and j < 8 with bit (7 - j) of m[addr + i] set,
(x + j) mod 64 = px and (y + i) mod 32 = py]; the returned collision flag is true
exactly when some such (i, j) has its target pixel set in g. -/
theorem sprite_blit_torus_xor (s : Emulator) (addr size x y : Nat)
    (hsize : size ≤ 15) (haddr : addr + size ≤ 4096) :
    ∃ s1 c, display_sprite s addr size x y = .ok (s1, c) ∧
      (∀ px py, px < 64 → py < 32 →
        (s1.framebuf (px + py * 64) = true ↔
          Xor' (s.framebuf (px + py * 64) = true)
            (∃ i j, i < size ∧ j < 8 ∧ (s.memory (addr + i)).testBit (7 - j) = true ∧
              (x + j) % 64 = px ∧ (y + i) % 32 = py))) ∧
      (c = true ↔
        ∃ i j, i < size ∧ j < 8 ∧ (s.memory (addr + i)).testBit (7 - j) = true ∧
          s.framebuf ((x + j) % 64 + (y + i) % 32 * 64) = true) := by
  have hnd := nodup_sprite_pixels s.memory addr size x y (by omega)
  refine ⟨_, _, display_sprite_eq s addr size x y hsize haddr, ?_, ?_⟩
  · intro px py hpx hpy
    have hP : (∃ i j, i < size ∧ j < 8 ∧ (s.memory (addr + i)).testBit (7 - j) = true ∧
          (x + j) % 64 = px ∧ (y + i) % 32 = py) ↔
        toggled (sprite_pixels s.memory addr size x y) (px + py * 64) = true := by
      constructor
      · rintro ⟨i, j, hi, hj, hb, h1, h2⟩
        apply toggled_of_nodup _ _ hnd
        rw [mem_sprite_pixels]
        exact ⟨i, j, hi, hj, hb, by omega⟩
      · intro ht
        obtain ⟨i, j, hi, hj, hb, h⟩ := (mem_sprite_pixels _ _ _ _ _ _).mp
          (mem_of_toggled _ _ ht)
        exact ⟨i, j, hi, hj, hb, by omega, by omega⟩
    rw [hP]
    simp only [foldl_plot_fst]
    cases s.framebuf (px + py * 64) <;>
      cases toggled (sprite_pixels s.memory addr size x y) (px + py * 64) <;>
      simp [Xor']
  · rw [foldl_plot_snd_nodup _ _ _ hnd]
    constructor
    · rintro (h | ⟨k, hk, hlit⟩)
      · cases h
      · obtain ⟨i, j, hi, hj, hb, rfl⟩ := (mem_sprite_pixels _ _ _ _ _ _).mp hk
        exact ⟨i, j, hi, hj, hb, hlit⟩
    · rintro ⟨i, j, hi, hj, hb, hlit⟩
      exact Or.inr ⟨_, (mem_sprite_pixels _ _ _ _ _ _).mpr ⟨i, j, hi, hj, hb, rfl⟩, hlit⟩

theorem sprite_blit_torus_xor_witness :
    ∃ s1 c, display_sprite power_on 0 5 62 30 = .ok (s1, c) ∧
      s1.framebuf (1 + 0 * 64) = true ∧ s1.framebuf (2 + 0 * 64) = false ∧ c = false := by
  obtain ⟨s1, c, h, hpix, hcol⟩ :=
    sprite_blit_torus_xor power_on 0 5 62 30 (by decide) (by decide)
  refine ⟨s1, c, h, ?_, ?_, ?_⟩
  · exact (hpix 1 0 (by decide) (by decide)).mpr
      (Or.inr ⟨⟨2, 3, by decide, by decide, by decide, by decide, by decide⟩,
        fun hlit => Bool.false_ne_true hlit⟩)
  · cases hb : s1.framebuf (2 + 0 * 64)
    · rfl
    · rcases (hpix 2 0 (by decide) (by decide)).mp hb with
        ⟨hlit, -⟩ | ⟨⟨i, j, hi, hj, hbit, h1, h2⟩, -⟩
      · exact absurd hlit Bool.false_ne_true
      · have hi2 : i = 2 := by omega
        have hj4 : j = 4 := by omega
        subst hi2 hj4
        revert hbit
        decide
  · cases hc : c
    · rfl
    · obtain ⟨i, j, -, -, -, hlit⟩ := hcol.mp hc
      exact absurd hlit Bool.false_ne_true

/-! ## Register block store and load -/

/-- What `Fx55` does to the whole machine when the assertion on I passes. -/
theorem run_Fx55 (s : Emulator) (rnd : Nat) (polls : List (List SDL_Event)) (x : Nat)
    (hpc : s.pc < 4095) (hsp : s.sp < 16) (hx : x < 16) (hI : s.I ≤ 4096 - x)
    (hinst : fetch s = 0xF000 + 0x100 * x + 0x55) :
    run_instruction s rnd polls =
      .ok (advance
        { s with
          memory := fun a =>
            if s.I ≤ a ∧ a < s.I + (x + 1) then s.regs (a - s.I) else s.memory a }
        2, polls) := by
  obtain ⟨h1, h2, h3⟩ := decode_Fxkk _ x 0x55 hx (by omega) hinst
  have hx15 : x ≤ 15 := by omega
  simp [run_instruction, hpc, hsp, h1, h2, h3, hI, hx15]

/-- What `Fx65` does to the whole machine when the assertion on I passes. -/
theorem run_Fx65 (s : Emulator) (rnd : Nat) (polls : List (List SDL_Event)) (x : Nat)
    (hpc : s.pc < 4095) (hsp : s.sp < 16) (hx : x < 16) (hI : s.I ≤ 4096 - x)
    (hinst : fetch s = 0xF000 + 0x100 * x + 0x65) :
    run_instruction s rnd polls =
      .ok (advance
        { s with
          regs := fun k => if k < x + 1 then s.memory (s.I + k) else s.regs k }
        2, polls) := by
  obtain ⟨h1, h2, h3⟩ := decode_Fxkk _ x 0x65 hx (by omega) hinst
  have hx15 : x ≤ 15 := by omega
  simp [run_instruction, hpc, hsp, h1, h2, h3, hI, hx15]

/-- C21: for every register index x and every I with I + x ≤ 4095, `Fx55` completes,
writes memory[I + k] = Vk for every k in 0..x and changes no other memory byte, no
register and not I; and when `Fx65` with the same x is executed in any later state
that has the same I and those memory bytes as `Fx55` left them, it completes, V0..Vx
again hold the values they had when stored, and every register above Vx and I are as
they were before the `Fx65`. -/
theorem register_block_round_trip (s : Emulator) (rnd : Nat)
    (polls : List (List SDL_Event)) (x : Nat)
    (hpc : s.pc < 4095) (hsp : s.sp < 16) (hx : x < 16) (hI : s.I + x ≤ 4095)
    (hinst : fetch s = 0xF000 + 0x100 * x + 0x55) :
    ∃ s1, run_instruction s rnd polls = .ok (s1, polls) ∧
      (∀ k, k ≤ x → s1.memory (s.I + k) = s.regs k) ∧
      (∀ a, a < s.I ∨ s.I + x < a → s1.memory a = s.memory a) ∧
      s1.regs = s.regs ∧ s1.I = s.I ∧
      ∀ (s2 : Emulator) (rnd2 : Nat) (polls2 : List (List SDL_Event)),
        s2.pc < 4095 → s2.sp < 16 → fetch s2 = 0xF000 + 0x100 * x + 0x65 →
        s2.I = s.I → (∀ k, k ≤ x → s2.memory (s.I + k) = s1.memory (s.I + k)) →
        ∃ s3, run_instruction s2 rnd2 polls2 = .ok (s3, polls2) ∧
          (∀ k, k ≤ x → s3.regs k = s.regs k) ∧
          (∀ k, x < k → s3.regs k = s2.regs k) ∧ s3.I = s2.I := by
  have hstored : ∀ k, k ≤ x →
      (advance
        { s with
          memory := fun a =>
            if s.I ≤ a ∧ a < s.I + (x + 1) then s.regs (a - s.I) else s.memory a }
        2).memory (s.I + k) = s.regs k := by
    intro k hk
    show (if s.I ≤ s.I + k ∧ s.I + k < s.I + (x + 1) then s.regs (s.I + k - s.I)
      else s.memory (s.I + k)) = s.regs k
    rw [if_pos ⟨by omega, by omega⟩, Nat.add_sub_cancel_left]
  refine ⟨_, run_Fx55 s rnd polls x hpc hsp hx (by omega) hinst, hstored, ?_, rfl, rfl, ?_⟩
  · intro a ha
    show (if s.I ≤ a ∧ a < s.I + (x + 1) then s.regs (a - s.I) else s.memory a) = s.memory a
    rw [if_neg (by omega)]
  · intro s2 rnd2 polls2 hpc2 hsp2 hinst2 hI2 hmem2
    refine ⟨_, run_Fx65 s2 rnd2 polls2 x hpc2 hsp2 hx (by omega) hinst2, ?_, ?_, rfl⟩
    · intro k hk
      show (if k < x + 1 then s2.memory (s2.I + k) else s2.regs k) = s.regs k
      rw [if_pos (by omega), hI2, hmem2 k hk, hstored k hk]
    · intro k hk
      show (if k < x + 1 then s2.memory (s2.I + k) else s2.regs k) = s2.regs k
      rw [if_neg (by omega)]

theorem register_block_round_trip_witness :
    ∃ s1 s3, run_instruction block_round_trip_example 0 [] = .ok (s1, []) ∧
      s1.memory 0x300 = 1 ∧ s1.memory 0x301 = 2 ∧ s1.memory 0x302 = 3 ∧
      run_instruction { s1 with regs := fun _ => 0 } 0 [] = .ok (s3, []) ∧
      s3.regs 0 = 1 ∧ s3.regs 1 = 2 ∧ s3.regs 2 = 3 ∧ s3.regs 3 = 0 := by
  obtain ⟨s1, h1, hmem, -, -, -, hback⟩ :=
    register_block_round_trip block_round_trip_example 0 [] 2 (by decide) (by decide)
      (by decide) (by decide) (by decide)
  have e := run_Fx55 block_round_trip_example 0 [] 2 (by decide) (by decide) (by decide)
    (by decide) (by decide)
  have h1copy := h1
  rw [e] at h1copy
  simp only [Except.ok.injEq, Prod.mk.injEq, and_true] at h1copy
  subst h1copy
  obtain ⟨s3, h3, hregs, hrest, -⟩ :=
    hback
      { (advance
          { block_round_trip_example with
            memory := fun a =>
              if block_round_trip_example.I ≤ a ∧ a < block_round_trip_example.I + (2 + 1)
              then block_round_trip_example.regs (a - block_round_trip_example.I)
              else block_round_trip_example.memory a }
          2) with
        regs := fun _ => 0 }
      0 [] (by decide) (by decide) (by decide) (by decide) (fun k _ => rfl)
  exact ⟨_, s3, h1, hmem 0 (by decide), hmem 1 (by decide), hmem 2 (by decide), h3,
    hregs 0 (by decide), hregs 1 (by decide), hregs 2 (by decide), hrest 3 (by decide)⟩

/-! ## Index register add -/

/-- What `Fx1E` does to the whole machine. -/
theorem run_Fx1E (s : Emulator) (rnd : Nat) (polls : List (List SDL_Event)) (x : Nat)
    (hpc : s.pc < 4095) (hsp : s.sp < 16) (hx : x < 16)
    (hinst : fetch s = 0xF000 + 0x100 * x + 0x1E) :
    run_instruction s rnd polls =
      .ok (advance
        { s with
          regs := store s.regs 0xF (if s.I + s.regs x > 255 then 1 else 0),
          I := (s.I + store s.regs 0xF (if s.I + s.regs x > 255 then 1 else 0) x) % 65536 }
        2, polls) := by
  obtain ⟨h1, h2, h3⟩ := decode_Fxkk _ x 0x1E hx (by omega) hinst
  simp [run_instruction, hpc, hsp, h1, h2, h3]

/-- C22: for every register index x different from 0xF, every value v = Vx and every
index register value I, executing `Fx1E` leaves I = (I + v) mod 65536 and leaves VF = 1
if I + v > 255 (with the pre-instruction I) and VF = 0 otherwise; every register other
than VF keeps its value. -/
theorem add_index_sets_flag (s : Emulator) (rnd : Nat) (polls : List (List SDL_Event))
    (x : Nat) (hpc : s.pc < 4095) (hsp : s.sp < 16) (hx : x < 16) (hxF : x ≠ 0xF)
    (hinst : fetch s = 0xF000 + 0x100 * x + 0x1E) :
    ∃ s', run_instruction s rnd polls = .ok (s', polls) ∧
      s'.I = (s.I + s.regs x) % 65536 ∧
      s'.regs 0xF = (if s.I + s.regs x > 255 then 1 else 0) ∧
      (∀ k, k ≠ 0xF → s'.regs k = s.regs k) := by
  refine ⟨_, run_Fx1E s rnd polls x hpc hsp hx hinst, ?_, ?_, ?_⟩
  · show (s.I + store s.regs 0xF (if s.I + s.regs x > 255 then 1 else 0) x) % 65536 = _
    rw [store_other _ _ _ _ hxF]
  · show store s.regs 0xF (if s.I + s.regs x > 255 then 1 else 0) 0xF = _
    rw [store_same]
  · intro k hk
    show store s.regs 0xF (if s.I + s.regs x > 255 then 1 else 0) k = s.regs k
    rw [store_other _ _ _ _ hk]

theorem add_index_sets_flag_witness :
    (add_index_example.regs 0xF = 0 ∧
      ∃ s', run_instruction add_index_example 0 [] = .ok (s', []) ∧
        s'.I = 0x301 ∧ s'.regs 0xF = 1) ∧
    (add_index_small_example.regs 0xF = 9 ∧
      ∃ s', run_instruction add_index_small_example 0 [] = .ok (s', []) ∧
        s'.I = 0x15 ∧ s'.regs 0xF = 0) := by
  obtain ⟨s1, h1, hI1, hF1, -⟩ :=
    add_index_sets_flag add_index_example 0 [] 0 (by decide) (by decide) (by decide)
      (by decide) (by decide)
  obtain ⟨s2, h2, hI2, hF2, -⟩ :=
    add_index_sets_flag add_index_small_example 0 [] 0 (by decide) (by decide) (by decide)
      (by decide) (by decide)
  exact ⟨⟨by decide, s1, h1, by rw [hI1]; decide, by rw [hF1]; decide⟩,
    ⟨by decide, s2, h2, by rw [hI2]; decide, by rw [hF2]; decide⟩⟩

/-! ## Return on an empty stack -/

theorem handle_event_running_false (s : Emulator) (e : SDL_Event)
    (h : s.running = false) : (handle_event s e).running = false := by
  cases e <;> simp [handle_event, h]

theorem update_keys_running_false (s : Emulator) (evs : List SDL_Event)
    (h : s.running = false) : (update_keys s evs).running = false := by
  unfold update_keys
  induction evs generalizing s with
  | nil => exact h
  | cons e evs ih => exact ih _ (handle_event_running_false s e h)

/-- A batch of events that holds the quit event leaves `running` clear. -/
theorem update_keys_quit (s : Emulator) (evs : List SDL_Event)
    (h : SDL_Event.quit ∈ evs) : (update_keys s evs).running = false := by
  induction evs generalizing s with
  | nil => simp at h
  | cons e evs ih =>
    rcases List.mem_cons.mp h with h1 | h1
    · subst h1
      exact update_keys_running_false _ evs rfl
    · exact ih _ h1

/-- A batch of events without the quit event leaves `running` as it was. -/
theorem update_keys_no_quit (s : Emulator) (evs : List SDL_Event)
    (h : SDL_Event.quit ∉ evs) : (update_keys s evs).running = s.running := by
  unfold update_keys
  induction evs generalizing s with
  | nil => rfl
  | cons e evs ih =>
    have he : e ≠ SDL_Event.quit := fun h1 => h (h1 ▸ List.mem_cons_self _ _)
    have hrest : SDL_Event.quit ∉ evs := fun h1 => h (List.mem_cons_of_mem _ h1)
    rw [List.foldl_cons, ih _ hrest]
    cases e with
    | quit => exact absurd rfl he
    | keydown sym => rfl
    | keyup sym => rfl
    | other => rfl

theorem release_fold_lit (sym : Nat) (l : List Nat) (keys : Nat → Bool) (j : Nat)
    (h : l.foldl (fun k i => if sym = KEYMAP i then store k i false else k) keys j = true) :
    keys j = true := by
  induction l generalizing keys with
  | nil => exact h
  | cons i l ih =>
    have h1 : (if sym = KEYMAP i then store keys i false else keys) j = true := ih _ h
    by_cases hc : sym = KEYMAP i
    · rw [if_pos hc] at h1
      by_cases hj : j = i
      · subst hj
        rw [store_same] at h1
        cases h1
      · rw [store_other _ _ _ _ hj] at h1
        exact h1
    · rw [if_neg hc] at h1
      exact h1

/-- A batch of events without a key press leaves no key down when none was down. -/
theorem update_keys_no_keydown (s : Emulator) (evs : List SDL_Event)
    (h : ∀ sym, SDL_Event.keydown sym ∉ evs) (hnone : keys_none s.keys = true) :
    keys_none (update_keys s evs).keys = true := by
  unfold update_keys
  induction evs generalizing s with
  | nil => exact hnone
  | cons e evs ih =>
    have hrest : ∀ sym, SDL_Event.keydown sym ∉ evs :=
      fun sym h1 => h sym (List.mem_cons_of_mem _ h1)
    rw [List.foldl_cons]
    apply ih _ hrest
    cases e with
    | quit => exact hnone
    | keydown sym => exact absurd (List.mem_cons_self _ _) (h sym)
    | keyup sym =>
      rw [keys_none_iff] at hnone ⊢
      intro j hj
      cases hb : (handle_event s (SDL_Event.keyup sym)).keys j
      · rfl
      · have := release_fold_lit sym (List.range 16) s.keys j hb
        rw [hnone j hj] at this
        cases this
    | other => exact hnone

/-- Once the loop condition `keys.none() && running` is false, `wait_for_key_press`
returns at once. -/
theorem wait_for_key_press_done (s : Emulator) (polls : List (List SDL_Event))
    (h : (keys_none s.keys && s.running) = false) :
    wait_for_key_press s polls = .ok (scan_keys s.keys 16 0, s, polls) := by
  cases polls with
  | nil => simp [wait_for_key_press, h]
  | cons evs rest => simp [wait_for_key_press, h]

/-- A wait that starts with no key down and `running` set, polls batches `pre` that
bring neither the quit event nor a key press, and then polls a batch `q` that holds the
quit event and no key press, returns 255 after that batch, with no key down and
`running` clear. -/
theorem wait_for_key_press_quit (s : Emulator) (pre : List (List SDL_Event))
    (q : List SDL_Event) (post : List (List SDL_Event))
    (hrun : s.running = true) (hnone : keys_none s.keys = true)
    (hpre : ∀ evs, evs ∈ pre → SDL_Event.quit ∉ evs ∧ ∀ sym, SDL_Event.keydown sym ∉ evs)
    (hq : SDL_Event.quit ∈ q) (hqk : ∀ sym, SDL_Event.keydown sym ∉ q) :
    ∃ s1, wait_for_key_press s (pre ++ q :: post) = .ok (255, s1, post) ∧
      s1.running = false ∧ keys_none s1.keys = true := by
  induction pre generalizing s with
  | nil =>
    have hq1 := update_keys_quit s q hq
    have hk1 := update_keys_no_keydown s q hqk hnone
    refine ⟨update_keys s q, ?_, hq1, hk1⟩
    rw [List.nil_append, wait_for_key_press]
    simp only [hnone, hrun, Bool.and_self, if_true]
    rw [wait_for_key_press_done _ _ (by rw [hq1, Bool.and_false])]
    rw [scan_keys_none _ _ _ (fun j _ hj => (keys_none_iff _).mp hk1 j (by omega))]
  | cons evs pre ih =>
    obtain ⟨h1, h2⟩ := hpre evs (List.mem_cons_self _ _)
    have hrun1 : (update_keys s evs).running = true := by
      rw [update_keys_no_quit s evs h1]; exact hrun
    have hnone1 := update_keys_no_keydown s evs h2 hnone
    obtain ⟨s1, hw, a1, a2⟩ := ih (update_keys s evs) hrun1 hnone1
      (fun e he => hpre e (List.mem_cons_of_mem _ he))
    refine ⟨s1, ?_, a1, a2⟩
    rw [List.cons_append, wait_for_key_press]
    simp only [hnone, hrun, Bool.and_self, if_true]
    exact hw

/-- C20 (amended): take a cycle that executes `Fx0A` and starts the wait with no key
down and `running` set; let the wait poll batches `pre` that bring neither the quit
event nor a key press and then a batch `q` in which the quit event is observed and no
key is pressed.  Then the wait ends at that batch and the cycle completes: `running`
is clear, so the loop makes no further turn; the wait's return value 255 has been
stored in Vx and PC has advanced by 2; the cycle's timer tick has been issued as in
every cycle; every register other than Vx, I, the stack, the stack pointer, memory and
the display are as they were before the cycle. -/
theorem quit_during_key_wait (s : Emulator) (rnd : Nat) (first : List SDL_Event)
    (pre : List (List SDL_Event)) (q : List SDL_Event) (post : List (List SDL_Event))
    (x : Nat) (hx : x < 16) (hpc : s.pc < 4095) (hsp : s.sp < 16)
    (hinst : fetch s = 0xF000 + 0x100 * x + 0x0A)
    (hrun : (update_keys s first).running = true)
    (hnone : keys_none (update_keys s first).keys = true)
    (hpre : ∀ evs, evs ∈ pre → SDL_Event.quit ∉ evs ∧ ∀ sym, SDL_Event.keydown sym ∉ evs)
    (hq : SDL_Event.quit ∈ q) (hqk : ∀ sym, SDL_Event.keydown sym ∉ q) :
    ∃ s' beep, run_cycle s rnd (first :: (pre ++ q :: post)) = .ok (s', beep, post) ∧
      s'.running = false ∧ keys_none s'.keys = true ∧
      s'.regs x = 255 ∧ (∀ k, k ≠ x → s'.regs k = s.regs k) ∧
      s'.pc = s.pc + 2 ∧
      s'.delay_timer = (if s.delay_timer > 0 then s.delay_timer - 1 else 0) ∧
      s'.sound_timer = (if s.sound_timer > 0 then s.sound_timer - 1 else 0) ∧
      (beep = true ↔ s.sound_timer = 1) ∧
      s'.I = s.I ∧ s'.stack = s.stack ∧ s'.sp = s.sp ∧ s'.memory = s.memory ∧
      s'.framebuf = s.framebuf := by
  obtain ⟨a1, -, -, -, a5, a6, -⟩ := update_keys_same s first
  have hfetch0 : fetch (update_keys s first) = 0xF000 + 0x100 * x + 0x0A := by
    rw [← hinst]
    simp only [fetch, a1, a6]
  obtain ⟨s1, hw, -, hk1⟩ :=
    wait_for_key_press_quit (update_keys s first) pre q post hrun hnone hpre hq hqk
  have hri : run_instruction (update_keys s first) rnd (pre ++ q :: post) =
      .ok (advance { s1 with regs := store s1.regs x 255 } 2, post) := by
    rw [run_Fx0A _ rnd _ x (by rw [a6]; exact hpc) (by rw [a5]; exact hsp) hx hfetch0, hw]
  have hcycle : run_cycle s rnd (first :: (pre ++ q :: post)) =
      .ok ((update_screen
              (update_timers (advance { s1 with regs := store s1.regs x 255 } 2)).1).1,
           (update_timers (advance { s1 with regs := store s1.regs x 255 } 2)).2,
           post) := by
    unfold run_cycle
    simp only [List.headD_cons, List.tail_cons]
    rw [hri]
  have hnone' : keys_none (update_screen
      (update_timers (advance { s1 with regs := store s1.regs x 255 } 2)).1).1.keys = true := by
    rw [update_timers_eq, update_screen_eq]
    exact hk1
  obtain ⟨c1, c2, c3, c4, c5, c6, c7, c8, c9, c10, c11, c12⟩ :=
    key_wait_cycle_without_key s rnd (first :: (pre ++ q :: post)) x _ _ post hx hinst
      hcycle hnone'
  exact ⟨_, _, hcycle, c1, hnone', c2, c3, c4, c5, c6, c7, c8, c9, c10, c11, c12⟩

theorem quit_during_key_wait_witness :
    ∃ s' beep, run_cycle quit_wait_example 0 quit_wait_polls = .ok (s', beep, []) ∧
      s'.running = false ∧ s'.regs 3 = 255 ∧ s'.pc = quit_wait_example.pc + 2 ∧
      s'.delay_timer = 4 ∧ s'.sound_timer = 2 := by
  obtain ⟨s', beep, h, h1, -, h3, -, h5, h6, h7, -⟩ :=
    quit_during_key_wait quit_wait_example 0 [] [[]] [SDL_Event.quit] [] 3 (by decide)
      (by decide) (by decide) (by decide) (by decide) (by decide) (by simp) (by decide)
      (by simp)
  exact ⟨s', beep, h, h1, h3, h5, by rw [h6]; decide, by rw [h7]; decide⟩

end Chip8
